import Mathlib

/-!
Verification of the lattice-symmetry / reflection-matching core of the
`dials` repository against its natural-language specification.

The Python sources are shallowly embedded: floats are idealized as exact
rationals (`ℚ`), fallible code returns `Except PyErr`, columnar reflection
tables become lists of row structures, and the external collaborators
(the refinement service, the symmetry-correlation service, the Lepage
enumeration) are oracle parameters or spec-modelled functions, as noted at
each definition.  Definitions come first, then the lemmas and the claim
theorems.
-/

set_option maxHeartbeats 1000000

/-- Python exception kinds that the embedded code can raise.  A
`RuntimeError` carries its message string, since
`dials.algorithms.indexing.symmetry.refine_subgroup` dispatches on the
exact message text. -/
inductive PyErr where
  | runtimeError (msg : String)
  | assertionError
  | attributeError
  | typeError
  | indexError
deriving DecidableEq, Repr

/-! ## C1: the recommendation decision table (`identify_likely_solutions`)

`identify_likely_solutions` (src/algorithms/indexing/symmetry.py lines
160-174) reads the attributes `max_angular_difference`, `min_cc`, `rmsd`,
`setting_number` of each refined setting and mutates `recommended`.
`min_cc` and `rmsd` may be Python `None` (unrefinable settings, or too few
correlation coefficients), so they are embedded as `Option ℚ`. -/

structure Solution where
  max_angular_difference : ℚ
  min_cc : Option ℚ
  rmsd : Option ℚ
  setting_number : ℤ
  recommended : Bool
deriving DecidableEq, Repr, Inhabited

/-- Python 2 semantics of `x < c` where `x` may be `None`: `None` compares
less than every number. -/
def pyLtNum : Option ℚ → ℚ → Bool
  | none, _ => true
  | some a, c => decide (a < c)

/-- Python 2 semantics of `x > c` where `x` may be `None`: `None` compares
less than every number, so `None > c` is `False`. -/
def pyGtB : Option ℚ → ℚ → Bool
  | none, _ => false
  | some r, c => decide (r > c)

/-- Python 2 semantics of `solution.rmsd > c * rmsd_p1`.  The product
`c * rmsd_p1` is evaluated first and raises `TypeError` when `rmsd_p1` is
`None`. -/
def pyRmsdGt (rmsd : Option ℚ) (c : ℚ) (rmsd_p1 : Option ℚ) : Except PyErr Bool :=
  match rmsd_p1 with
  | none => Except.error PyErr.typeError
  | some p => Except.ok (pyGtB rmsd (c * p))

/-- One iteration of the `for solution in all_solutions` loop of
`identify_likely_solutions`: `recommended` is first set to `False`, the
`if`/`elif` chain decides rejection (with Python's lazy evaluation of the
products against `rmsd_p1`), and fall-through sets `recommended = True`. -/
def likelyStep (rmsd_p1 : Option ℚ) (s : Solution) : Except PyErr Solution := do
  let reject ←
    if s.max_angular_difference < (1 : ℚ) / 2 then
      if pyLtNum s.min_cc ((1 : ℚ) / 2) then
        pyRmsdGt s.rmsd ((3 : ℚ) / 2) rmsd_p1
      else
        pure false
    else do
      let cond1 ←
        if pyLtNum s.min_cc ((7 : ℚ) / 10) then
          pyRmsdGt s.rmsd 2 rmsd_p1
        else
          pure false
      if cond1 then pure true else pyRmsdGt s.rmsd 3 rmsd_p1
  Except.ok { s with recommended := !reject }

/-- Embedding of a Python `for` loop that transforms each element and can
raise: the first exception aborts the traversal. -/
def mapExcept {α β : Type} (f : α → Except PyErr β) : List α → Except PyErr (List β)
  | [] => Except.ok []
  | x :: xs => do
    let y ← f x
    let ys ← mapExcept f xs
    Except.ok (y :: ys)

/-- Embedding of `identify_likely_solutions` (symmetry.py lines 160-174):
`all_solutions[-1]` raises `IndexError` on the empty list, the
`assert p1_solution.setting_number == 1` raises `AssertionError`, then the
loop sets each `recommended` flag.  The list is rebuilt rather than
mutated in place. -/
def identify_likely_solutions (all_solutions : List Solution) :
    Except PyErr (List Solution) := do
  let p1_solution ←
    match all_solutions.getLast? with
    | some p => Except.ok p
    | none => Except.error PyErr.indexError
  if p1_solution.setting_number = 1 then
    mapExcept (likelyStep p1_solution.rmsd) all_solutions
  else
    Except.error PyErr.assertionError

/-- The decision table exactly as claim C1 words it, for a setting whose
`min_cc` and `rmsd` are present: with `rmsd_p1` the triclinic baseline,
a setting with small metric distortion is rejected iff
`min_cc < 0.5 ∧ rmsd > 1.5·rmsd_p1`, otherwise it is rejected iff
`(min_cc < 0.7 ∧ rmsd > 2·rmsd_p1) ∨ rmsd > 3·rmsd_p1`. -/
def claimRecommended (mad mc r rp1 : ℚ) : Bool :=
  if mad < (1 : ℚ) / 2 then
    !(decide (mc < (1 : ℚ) / 2) && decide (r > (3 : ℚ) / 2 * rp1))
  else
    !((decide (mc < (7 : ℚ) / 10) && decide (r > 2 * rp1)) || decide (r > 3 * rp1))

/-- Total version of `likelyStep` when the baseline rmsd is present (in
that case no `TypeError` can be raised); used to state that the loop
succeeds. -/
def likelyStepRun (rp1 : ℚ) (s : Solution) : Solution :=
  let reject :=
    if s.max_angular_difference < (1 : ℚ) / 2 then
      pyLtNum s.min_cc ((1 : ℚ) / 2) && pyGtB s.rmsd ((3 : ℚ) / 2 * rp1)
    else
      (pyLtNum s.min_cc ((7 : ℚ) / 10) && pyGtB s.rmsd (2 * rp1)) ||
        pyGtB s.rmsd (3 * rp1)
  { s with recommended := !reject }

/-- Concrete refined settings list used to witness C1: a near-exact
metric fit with poor cc and inflated rmsd (rejected), a looser fit with
good rmsd (accepted), and the triclinic baseline itself. -/
def c1Example : List Solution :=
  [ { max_angular_difference := 1/10, min_cc := some (2/10), rmsd := some 2,
      setting_number := 3, recommended := false },
    { max_angular_difference := 3, min_cc := some (8/10), rmsd := some (11/10),
      setting_number := 2, recommended := false },
    { max_angular_difference := 0, min_cc := some 1, rmsd := some 1,
      setting_number := 1, recommended := false } ]

/-! ## C5, C6, C10: `refine_subgroup` (symmetry.py lines 177-252)

The external refinement service (`dials.algorithms.indexing.refinement.refine`)
and the correlation-coefficient service
(`dials.command_line.check_indexing_symmetry.get_symop_correlation_coefficients`,
a repository module not present under src/) are oracle parameters.  A
refinement failure is a `RuntimeError` carrying a message string. -/

/-- A crystal model; only the data read by the embedded code is kept
(unit-cell parameters and volume, used by the rendering functions). -/
structure Crystal where
  unit_cell_params : List ℚ
  volume : ℚ
deriving DecidableEq, Repr, Inhabited

/-- An experiment list, reduced to its crystal list (`experiments.crystals()`). -/
structure Experiments where
  crystals : List Crystal
deriving DecidableEq, Repr, Inhabited

/-- One reflection row, reduced to the columns `refine_subgroup` reads. -/
structure ReflRow where
  miller_index : ℤ × ℤ × ℤ
  intensity_sum_value : ℚ
  intensity_sum_variance : ℚ
deriving DecidableEq, Repr, Inhabited

/-- A reflection table; `has_intensity` records whether the
`intensity.sum.value` column is present. -/
structure Reflections where
  rows : List ReflRow
  has_intensity : Bool
deriving DecidableEq, Repr, Inhabited

/-- What `refine_subgroup` passes to one call of the external `refine`
service: the reflection table and experiments, with the tukey
`iqr_multiplier` in force for that call. -/
structure RefineCall where
  iqr_multiplier : ℚ
  reflections : Reflections
  experiments : Experiments
deriving DecidableEq, Repr

/-- What `refine_subgroup` reads back from a successful `refine` call:
`refinery.rmsds()` (first two components used), `len(refinery.get_matches())`
and `refinery.get_experiments()`. -/
structure RefineOut where
  rmsds : ℚ × ℚ × ℚ
  nmatches : ℕ
  experiments : Experiments
deriving DecidableEq, Repr

/-- The parameters `refine_subgroup` reads directly.  `params.normalise`,
`params.normalise_bins` and `params.cc_n_bins` only shape the intensity
array handed to the external correlation service and are absorbed into the
`ccSvc` oracle. -/
structure RSParams where
  iqr_multiplier : ℚ
deriving DecidableEq, Repr

/-- A candidate Bravais setting as `refine_subgroup` sees and mutates it.
`cb_op` is the miller-index action of `subgroup['cb_op_inp_best']`.
The code stores `rmsd = math.sqrt(dx*dx + dy*dy)`; to stay in exact
arithmetic the model stores the square, `rmsd_sq = dx*dx + dy*dy` (the
square root is strictly monotone on nonnegatives, so order comparisons
against rmsd correspond to comparisons against `rmsd_sq`).  Attributes a
`bravais_setting` object may simply not have yet (`refined_crystal`,
`rmsd`, `Nmatches`, `refined_experiments`) are `Option`-valued, `none`
standing for both "never assigned" and "assigned `None`" (the source never
assigns `None` to `refined_crystal`, so no information is lost). -/
structure SubgroupS where
  cb_op : (ℤ × ℤ × ℤ) → ℤ × ℤ × ℤ
  cb_op_str : String
  unrefined_crystal : Crystal
  max_angular_difference : ℚ
  setting_number : ℤ
  bravais : String
  recommended : Bool
  max_cc : Option ℚ
  min_cc : Option ℚ
  correlation_coefficients : List ℚ
  cc_nrefs : List ℕ
  refined_experiments : Option Experiments
  rmsd_sq : Option ℚ
  Nmatches : Option ℕ
  refined_crystal : Option Crystal

/-- The first degenerate-geometry error signature recognized by
`refine_subgroup` (exact text). -/
def sig_g0 : String := "scitbx Error: g0 - astry*astry -astrz*astrz <= 0."

/-- The second degenerate-geometry error signature recognized by
`refine_subgroup` (exact text). -/
def sig_g1 : String := "scitbx Error: g1-bstrz*bstrz <= 0."

/-- The copied reflection table with its miller indices reindexed into the
candidate setting (`cb_op.apply(triclinic_miller)`). -/
def reindexedRefl (subgroup : SubgroupS) (r : Reflections) : Reflections :=
  { r with rows := r.rows.map (fun row => { row with miller_index := subgroup.cb_op row.miller_index }) }

/-- The attribute resets done before the `try` block:
`subgroup.max_cc = None` etc. -/
def ccCleared (s : SubgroupS) : SubgroupS :=
  { s with max_cc := none, min_cc := none, correlation_coefficients := [], cc_nrefs := [] }

/-- The `except RuntimeError` clause: the two exact degenerate-geometry
messages are caught and mark the setting unrefinable; any other message is
re-raised. -/
def catchDegenerate (e : String) (s : SubgroupS) : Except PyErr SubgroupS :=
  if e = sig_g0 ∨ e = sig_g1 then
    Except.ok { s with refined_experiments := none, rmsd_sq := none, Nmatches := none }
  else
    Except.error (PyErr.runtimeError e)

/-- The first `refine` call: tukey iqr multiplier doubled. -/
def rsCall1 (params : RSParams) (subgroup : SubgroupS) (used_reflections : Reflections)
    (experiments : Experiments) : RefineCall :=
  { iqr_multiplier := 2 * params.iqr_multiplier,
    reflections := reindexedRefl subgroup used_reflections,
    experiments := experiments }

/-- The second `refine` call: original multiplier restored, experiments
taken from the first refinery. -/
def rsCall2 (params : RSParams) (subgroup : SubgroupS) (used_reflections : Reflections)
    (out1 : RefineOut) : RefineCall :=
  { iqr_multiplier := params.iqr_multiplier,
    reflections := reindexedRefl subgroup used_reflections,
    experiments := out1.experiments }

/-- Embedding of `ccs.select(nrefs > 10)` (retain coefficients with more
than 10 contributing reflection pairs). -/
def flexSelectCc (ccs : List ℚ) (nrefs : List ℕ) : List ℚ :=
  ((ccs.zip nrefs).filter (fun p => decide (10 < p.2))).map Prod.fst

/-- Embedding of `flex.min` on a (nonempty, in every reachable use) list;
the default for `[]` is arbitrary. -/
def flexMin : List ℚ → ℚ
  | [] => 0
  | x :: xs => xs.foldl min x

/-- Embedding of `flex.max` on a (nonempty, in every reachable use) list;
the default for `[]` is arbitrary. -/
def flexMax : List ℚ → ℚ
  | [] => 0
  | x :: xs => xs.foldl max x

/-- The attribute updates of the success branch that happen before the
crystal assertion: rmsd (squared here), match count and refined
experiments, all read off the second refinery. -/
def rsBase (subgroup : SubgroupS) (out2 : RefineOut) : SubgroupS :=
  { subgroup with
    rmsd_sq := some (out2.rmsds.1 * out2.rmsds.1 + out2.rmsds.2.1 * out2.rmsds.2.1),
    Nmatches := some out2.nmatches,
    refined_experiments := some out2.experiments }

/-- The positive-variance subset (`used_reflections.select(variance > 0)`)
handed to the correlation service. -/
def rsGood (used_reflections : Reflections) : List ReflRow :=
  used_reflections.rows.filter (fun r => decide (0 < r.intensity_sum_variance))

/-- The `(ccs, nrefs)` pair returned by the external
`get_symop_correlation_coefficients` oracle for this run. -/
def rsCcPair (ccSvc : Crystal → List ReflRow → List ℚ × List ℕ)
    (used_reflections : Reflections) (out2 : RefineOut) : List ℚ × List ℕ :=
  ccSvc (out2.experiments.crystals.headD default) (rsGood used_reflections)

/-- The surviving correlation coefficients, `ccs.select(nrefs > 10)`. -/
def keptOf (ccSvc : Crystal → List ReflRow → List ℚ × List ℕ)
    (used_reflections : Reflections) (out2 : RefineOut) : List ℚ :=
  flexSelectCc (rsCcPair ccSvc used_reflections out2).1 (rsCcPair ccSvc used_reflections out2).2

/-- The success branch after the two `refine` calls (the `else:` of the
`try`): record rmsd (squared here), match count, refined experiments and
crystal; the `assert len(...crystals()) == 1` is an uncaught
`AssertionError` (it sits outside the `try` block, so it is not caught by
the `except RuntimeError` clause); then, when an intensity column is
present, the correlation-coefficient summary: `min_cc`/`max_cc` stay
`None` unless more than one coefficient survives `nrefs > 10`, in which
case they are `flex.min`/`flex.max` of the survivors without the first
(`ccs[1:]`). -/
def rsSuccess (ccSvc : Crystal → List ReflRow → List ℚ × List ℕ)
    (subgroup : SubgroupS) (used_reflections : Reflections) (out2 : RefineOut) :
    Except PyErr SubgroupS :=
  if out2.experiments.crystals.length = 1 then
    if used_reflections.has_intensity then
      if 1 < (keptOf ccSvc used_reflections out2).length then
        Except.ok { rsBase subgroup out2 with
          refined_crystal := some (out2.experiments.crystals.headD default),
          correlation_coefficients := (rsCcPair ccSvc used_reflections out2).1,
          cc_nrefs := (rsCcPair ccSvc used_reflections out2).2,
          max_cc := some (flexMax (keptOf ccSvc used_reflections out2).tail),
          min_cc := some (flexMin (keptOf ccSvc used_reflections out2).tail) }
      else
        Except.ok { rsBase subgroup out2 with
          refined_crystal := some (out2.experiments.crystals.headD default),
          correlation_coefficients := (rsCcPair ccSvc used_reflections out2).1,
          cc_nrefs := (rsCcPair ccSvc used_reflections out2).2 }
    else
      Except.ok { rsBase subgroup out2 with
        refined_crystal := some (out2.experiments.crystals.headD default) }
  else
    Except.error PyErr.assertionError

/-- Embedding of `refine_subgroup` (symmetry.py lines 177-252).  The
external `refine` service is the oracle `refineSvc` (a raised
`RuntimeError` is an `Except.error` with its message); the external
correlation service is the oracle `ccSvc`, applied to the refined crystal
and to the positive-variance subset of the (reindexed) reflections.  The
second component of the result is the trace of `refine` calls actually
issued.  Logging and the `finally` logger restore are omitted. -/
def refine_subgroup (refineSvc : RefineCall → Except String RefineOut)
    (ccSvc : Crystal → List ReflRow → List ℚ × List ℕ)
    (params : RSParams) (subgroup : SubgroupS)
    (used_reflections : Reflections) (experiments : Experiments) :
    Except PyErr SubgroupS × List RefineCall :=
  match refineSvc (rsCall1 params subgroup used_reflections experiments) with
  | Except.error e =>
    (catchDegenerate e (ccCleared subgroup),
      [rsCall1 params subgroup used_reflections experiments])
  | Except.ok out1 =>
    match refineSvc (rsCall2 params subgroup used_reflections out1) with
    | Except.error e =>
      (catchDegenerate e (ccCleared subgroup),
        [rsCall1 params subgroup used_reflections experiments,
         rsCall2 params subgroup used_reflections out1])
    | Except.ok out2 =>
      (rsSuccess ccSvc (ccCleared subgroup) (reindexedRefl subgroup used_reflections) out2,
        [rsCall1 params subgroup used_reflections experiments,
         rsCall2 params subgroup used_reflections out1])

/-- The surviving correlation coefficients (`ccs.select(nrefs > 10)`) for
a full run of `refine_subgroup` (the reflection table it hands to the
correlation service is the reindexed copy). -/
def rsKept (ccSvc : Crystal → List ReflRow → List ℚ × List ℕ)
    (subgroup : SubgroupS) (used_reflections : Reflections) (out2 : RefineOut) : List ℚ :=
  keptOf ccSvc (reindexedRefl subgroup used_reflections) out2

/-! Concrete inputs used by the witnesses of C5, C6, C10 and the C9
counterexample. -/

/-- A concrete crystal. -/
def crystalW : Crystal := { unit_cell_params := [10, 10, 10, 90, 90, 90], volume := 1000 }

/-- A concrete one-crystal experiment list. -/
def exptsW : Experiments := { crystals := [crystalW] }

/-- A concrete candidate setting before refinement: no refinement
attributes assigned yet. -/
def subW : SubgroupS :=
  { cb_op := fun h => h, cb_op_str := "a,b,c", unrefined_crystal := crystalW,
    max_angular_difference := 0, setting_number := 2, bravais := "aP",
    recommended := false, max_cc := none, min_cc := none,
    correlation_coefficients := [], cc_nrefs := [],
    refined_experiments := none, rmsd_sq := none, Nmatches := none,
    refined_crystal := none }

/-- A concrete reflection table with an intensity column. -/
def reflW : Reflections :=
  { rows := [ { miller_index := (1, 0, 0), intensity_sum_value := 5, intensity_sum_variance := 1 },
              { miller_index := (0, 1, 0), intensity_sum_value := 7, intensity_sum_variance := 2 } ],
    has_intensity := true }

/-- Result of the first concrete `refine` call. -/
def outW1 : RefineOut := { rmsds := (1, 1, 0), nmatches := 30, experiments := exptsW }

/-- Result of the second concrete `refine` call. -/
def outW2 : RefineOut := { rmsds := (3, 4, 1), nmatches := 25, experiments := exptsW }

/-- Concrete parameters: configured tukey iqr multiplier 3/2. -/
def paramsW : RSParams := { iqr_multiplier := 3/2 }

/-- A concrete refinement oracle distinguishing the two passes by the
multiplier in force. -/
def refineSvcW (c : RefineCall) : Except String RefineOut :=
  if c.iqr_multiplier = 3 then Except.ok outW1 else Except.ok outW2

/-- A concrete refinement oracle that always fails with the first
degenerate-geometry signature. -/
def refineSvcG0 (_ : RefineCall) : Except String RefineOut :=
  Except.error sig_g0

/-- A concrete refinement oracle that always fails with an unrecognized
message. -/
def refineSvcBoom (_ : RefineCall) : Except String RefineOut :=
  Except.error ("some other refinement failure")

/-- A concrete correlation-coefficient oracle: three symmetry operations,
all with more than 10 contributing pairs. -/
def ccSvcW (_ : Crystal) (_ : List ReflRow) : List ℚ × List ℕ :=
  ([1/2, 3/4, 9/10], [20, 15, 12])

/-! ## C4, C8: `refined_settings_factory_from_refined_triclinic`
(symmetry.py lines 97-158)

The enumeration itself (`iotbx_converter`, the rstbx Lepage enumeration)
is an external collaborator.  Modelled from the spec: its output list is
ordered descending by `order_z*1000 + space_group_number` (coarsest
symmetry first), which enters the theorems as a sortedness hypothesis on
the `sort_key` field; the factory's own contribution — the two assertions
and the `setting_number` assignment — is embedded from the source.  The
per-setting crystal construction, the parallel `refine_subgroup` dispatch
(order-preserving, `Lfat[i] = result[i]`) and the final
`identify_likely_solutions` call do not reorder the list and do not touch
`setting_number` or `cb_op_inp_best`, so they are omitted from this
slice. -/

/-- One enumerated Bravais setting as the factory prefix sees it:
`cb_op_inp_best` is kept as its string form (`"a,b,c"` is the identity
operator), `sort_key` is the enumeration rank `order_z*1000 + number`. -/
structure BravaisSettingM where
  cb_op_inp_best : String
  sort_key : ℤ
  setting_number : ℤ
deriving DecidableEq, Repr, Inhabited

/-- `refined_settings_list.supergroup()`: `self[0]`. -/
def rsl_supergroup (l : List BravaisSettingM) : BravaisSettingM :=
  l.headD default

/-- `refined_settings_list.triclinic()`: `self[-1]`. -/
def rsl_triclinic (l : List BravaisSettingM) : BravaisSettingM :=
  l.getLastD default

/-- The loop `for j in xrange(Nset): Lfat[j].setting_number = Nset-j`. -/
def assign_setting_numbers (lfat : List BravaisSettingM) : List BravaisSettingM :=
  (List.range lfat.length).map
    (fun j => { lfat.getD j default with
      setting_number := (lfat.length : ℤ) - (j : ℤ) })

/-- Embedding of the checking-and-numbering prefix of
`refined_settings_factory_from_refined_triclinic`:
`assert len(experiments.crystals()) == 1`; `Lfat[0]`/`Lfat[-1]` raise
`IndexError` on an empty enumeration;
`assert str(triclinic['cb_op_inp_best']) == "a,b,c"` — the assertion is on
the LAST (triclinic) entry; then the `setting_number` assignment. -/
def refined_settings_factory_checks (crystals : List Crystal)
    (lfat : List BravaisSettingM) : Except PyErr (List BravaisSettingM) :=
  if crystals.length = 1 then
    if lfat = [] then Except.error PyErr.indexError
    else if (lfat.getLastD default).cb_op_inp_best = "a,b,c" then
      Except.ok (assign_setting_numbers lfat)
    else Except.error PyErr.assertionError
  else Except.error PyErr.assertionError

/-- A concrete enumeration output: supergroup first (non-identity
change of basis, largest sort key), triclinic last (identity). -/
def c4List : List BravaisSettingM :=
  [ { cb_op_inp_best := "b,c,a", sort_key := 5195, setting_number := 0 },
    { cb_op_inp_best := "a,-c,b", sort_key := 3005, setting_number := 0 },
    { cb_op_inp_best := "a,b,c", sort_key := 1001, setting_number := 0 } ]

/-- A concrete enumeration output whose FIRST entry has the identity
change of basis but whose last does not — the configuration claim C8
asserts is accepted. -/
def c8List : List BravaisSettingM :=
  [ { cb_op_inp_best := "a,b,c", sort_key := 5195, setting_number := 0 },
    { cb_op_inp_best := "b,c,a", sort_key := 1001, setting_number := 0 } ]

/-! ## C9: `refined_settings_list.as_dict` and `labelit_printout`
(symmetry.py lines 40-89)

Both functions are rendered over the post-refinement setting objects
(`SubgroupS`).  Reading an attribute that was never assigned raises
`AttributeError` (`bravais_setting` objects only gain `refined_crystal` in
the success branch of `refine_subgroup`); formatting Python `None` with
`"%5.3f"` or `"%d"` raises `TypeError`. -/

/-- Reading a maybe-unassigned attribute: `AttributeError` when absent. -/
def attrGet {α : Type} (o : Option α) : Except PyErr α :=
  match o with
  | some a => Except.ok a
  | none => Except.error PyErr.attributeError

/-- Abstract numeric rendering; the exact decimal format is irrelevant to
the claims, only which values can be formatted at all. -/
def fmtNum (q : ℚ) : String :=
  toString q

/-- Python 2 `"%5.3f" % x`: raises `TypeError` when `x` is `None`. -/
def pyFmtFloat (x : Option ℚ) : Except PyErr String :=
  match x with
  | none => Except.error PyErr.typeError
  | some q => Except.ok (fmtNum q)

/-- Python 2 `"%d" % x`: raises `TypeError` when `x` is `None`. -/
def pyFmtInt (x : Option ℕ) : Except PyErr String :=
  match x with
  | none => Except.error PyErr.typeError
  | some n => Except.ok (toString n)

/-- One per-setting entry of `refined_settings_list.as_dict()` (keyed by
`setting_number` in the source; a list entry here). -/
structure SettingDict where
  setting_number : ℤ
  max_angular_difference : ℚ
  rmsd_sq : Option ℚ
  nspots : Option ℕ
  bravais : String
  unit_cell : List ℚ
  cb_op : String
  max_cc : Option ℚ
  min_cc : Option ℚ
  correlation_coefficients : List ℚ
  cc_nrefs : List ℕ
  recommended : Bool
deriving DecidableEq, Repr

/-- One iteration of the `as_dict` loop: the very first statement,
`uc = item.refined_crystal.get_unit_cell()`, reads the `refined_crystal`
attribute; the remaining fields (including a `None` rmsd) go into the dict
unformatted. -/
def setting_as_dict (item : SubgroupS) : Except PyErr SettingDict := do
  let cryst ← attrGet item.refined_crystal
  Except.ok {
    setting_number := item.setting_number,
    max_angular_difference := item.max_angular_difference,
    rmsd_sq := item.rmsd_sq,
    nspots := item.Nmatches,
    bravais := item.bravais,
    unit_cell := cryst.unit_cell_params,
    cb_op := item.cb_op_str,
    max_cc := item.max_cc,
    min_cc := item.min_cc,
    correlation_coefficients := item.correlation_coefficients,
    cc_nrefs := item.cc_nrefs,
    recommended := item.recommended }

/-- Embedding of `refined_settings_list.as_dict` (symmetry.py lines
40-59). -/
def rsl_as_dict (l : List SubgroupS) : Except PyErr (List SettingDict) :=
  mapExcept setting_as_dict l

/-- One table row of `labelit_printout` (symmetry.py lines 69-85): the
unit cell is read off `refined_crystal` first, absent min/max cc render as
the placeholder, `"%5.3f" % rmsd` and `"%d" % Nmatches` are the
formatting calls that raise on `None`. -/
def labelit_row (item : SubgroupS) : Except PyErr (List String) := do
  let cryst ← attrGet item.refined_crystal
  let min_max_cc_str :=
    match item.min_cc, item.max_cc with
    | some a, some b => fmtNum a ++ "/" ++ fmtNum b
    | _, _ => "-/-"
  let status := if item.recommended then "*" else ""
  let rmsdStr ← pyFmtFloat item.rmsd_sq
  let nStr ← pyFmtInt item.Nmatches
  Except.ok [status ++ toString item.setting_number,
    fmtNum item.max_angular_difference, rmsdStr, min_max_cc_str, nStr,
    item.bravais, String.intercalate " " (cryst.unit_cell_params.map fmtNum),
    fmtNum cryst.volume, item.cb_op_str]

/-- Embedding of `refined_settings_list.labelit_printout` (symmetry.py
lines 61-89), reduced to the table rows it renders. -/
def labelit_printout (l : List SubgroupS) : Except PyErr (List (List String)) :=
  mapExcept labelit_row l

/-- A fully refined concrete setting whose min/max cc are absent — the
configuration whose row must render with the dash placeholder. -/
def refinedNoCcW : SubgroupS :=
  { subW with
    refined_crystal := some crystalW
    refined_experiments := some exptsW
    rmsd_sq := some 2
    Nmatches := some 17
    min_cc := none
    max_cc := none }

/-! ## C7: `derive_change_of_basis_op` (src/command_line/reindex.py lines
72-111)

The in-source logic — the (0,0,0)-sentinel filter, the `>= 3` assertion,
the three per-component solves, the `int(12 * …)` snap with denominator
12, and the 100% validation assert — is embedded from the source.  Two
external numeric collaborators are spec-modelled (doc comments below):
the scitbx `normal_eqns.linear_ls` least-squares solver and the scitbx
`continued_fraction` rational approximation. -/

/-- A 3-vector of rationals. -/
abbrev QV3 := ℚ × ℚ × ℚ

/-- Dot product of two rational 3-vectors. -/
def dot3 (a b : QV3) : ℚ :=
  a.1 * b.1 + a.2.1 * b.2.1 + a.2.2 * b.2.2

/-- A rational 3×3 matrix. -/
structure Mat3 where
  m00 : ℚ
  m01 : ℚ
  m02 : ℚ
  m10 : ℚ
  m11 : ℚ
  m12 : ℚ
  m20 : ℚ
  m21 : ℚ
  m22 : ℚ
deriving DecidableEq, Repr

/-- Matrix-vector product. -/
def mat3Apply (m : Mat3) (v : QV3) : QV3 :=
  (m.m00 * v.1 + m.m01 * v.2.1 + m.m02 * v.2.2,
   m.m10 * v.1 + m.m11 * v.2.1 + m.m12 * v.2.2,
   m.m20 * v.1 + m.m21 * v.2.1 + m.m22 * v.2.2)

/-- The zero matrix. -/
def mat3Zero : Mat3 :=
  { m00 := 0, m01 := 0, m02 := 0, m10 := 0, m11 := 0, m12 := 0,
    m20 := 0, m21 := 0, m22 := 0 }

/-- Accumulate the outer product `v vᵀ` of one design-matrix row into the
normal matrix. -/
def mat3AddOuter (N : Mat3) (v : QV3) : Mat3 :=
  { m00 := N.m00 + v.1 * v.1, m01 := N.m01 + v.1 * v.2.1, m02 := N.m02 + v.1 * v.2.2,
    m10 := N.m10 + v.2.1 * v.1, m11 := N.m11 + v.2.1 * v.2.1, m12 := N.m12 + v.2.1 * v.2.2,
    m20 := N.m20 + v.2.2 * v.1, m21 := N.m21 + v.2.2 * v.2.1, m22 := N.m22 + v.2.2 * v.2.2 }

/-- The normal matrix `AᵀA` of a list of design rows. -/
def normalMat : List QV3 → Mat3
  | [] => mat3Zero
  | v :: vs => mat3AddOuter (normalMat vs) v

/-- The normal vector `Aᵀb` of design rows with right-hand sides. -/
def normalVec : List QV3 → List ℚ → QV3
  | v :: vs, b :: bs =>
    let rest := normalVec vs bs
    (rest.1 + b * v.1, rest.2.1 + b * v.2.1, rest.2.2 + b * v.2.2)
  | _, _ => (0, 0, 0)

/-- Determinant of a 3×3 matrix. -/
def det3 (m : Mat3) : ℚ :=
  m.m00 * (m.m11 * m.m22 - m.m12 * m.m21) -
    m.m01 * (m.m10 * m.m22 - m.m12 * m.m20) +
    m.m02 * (m.m10 * m.m21 - m.m11 * m.m20)

/-- Determinant with column 0 replaced by `c` (Cramer numerator). -/
def det3Col0 (m : Mat3) (c : QV3) : ℚ :=
  det3 { m with m00 := c.1, m10 := c.2.1, m20 := c.2.2 }

/-- Determinant with column 1 replaced by `c` (Cramer numerator). -/
def det3Col1 (m : Mat3) (c : QV3) : ℚ :=
  det3 { m with m01 := c.1, m11 := c.2.1, m21 := c.2.2 }

/-- Determinant with column 2 replaced by `c` (Cramer numerator). -/
def det3Col2 (m : Mat3) (c : QV3) : ℚ :=
  det3 { m with m02 := c.1, m12 := c.2.1, m22 := c.2.2 }

/-- Modelled from the spec: the external scitbx
`normal_eqns.linear_ls(3)` solver used by `derive_change_of_basis_op`
(missing from src/, an external collaborator).  It accumulates the normal
equations `AᵀA x = Aᵀ b` over the added equations and solves them by
Cholesky decomposition; idealized here to exact rational arithmetic via
Cramer's rule, and failing — the real solver raises on a non
positive-definite normal matrix — when the normal matrix is singular. -/
def lsSolve (rows : List QV3) (bs : List ℚ) : Option QV3 :=
  let N := normalMat rows
  let c := normalVec rows bs
  if det3 N = 0 then none
  else some (det3Col0 N c / det3 N, det3Col1 N c / det3 N, det3Col2 N c / det3 N)

/-- Python `int()` applied to an exact rational: truncation toward zero
(`Int` division in Lean truncates toward zero). -/
def truncToInt (q : ℚ) : ℤ :=
  q.num / (q.den : ℤ)

/-- Modelled from the spec: the external scitbx
`continued_fraction.from_real(x, eps=1e-2).as_rational()` (missing from
src/, an external collaborator), which approximates a real by the first
continued-fraction convergent within `eps`.  On an exact rational input
whose denominator divides 12 — the only inputs the surrounding code's
claims concern — the algorithmic (canonical) continued fraction of `x`
terminates at `x` itself and no earlier convergent lies within `1e-2`:
for a final denominator `q ≤ 6` any convergent distance is at least
`1/(5·6) > 1/100`, and for `q = 12` the canonical final partial quotient
is at least 2, forcing the previous convergent denominator below 6 and a
distance above `1/72 > 1/100`.  The approximation is therefore exact on
this input class and is modelled as the identity on `ℚ`. -/
def continued_fraction_as_rational (x : ℚ) : ℚ :=
  x

/-- The snap `int(denom * continued_fraction.from_real(r_, eps=1e-2)
.as_rational())` with `denom = 12`. -/
def snap12 (x : ℚ) : ℤ :=
  truncToInt (12 * continued_fraction_as_rational x)

/-- Miller index triple as a rational vector. -/
def intTripleToQ (h : ℤ × ℤ × ℤ) : QV3 :=
  ((h.1 : ℚ), (h.2.1 : ℚ), (h.2.2 : ℚ))

/-- The valid correspondence rows: `sel = (to_hkl != (0,0,0)) &
(from_hkl != (0,0,0))` applied to both arrays. -/
def validPairs (from_hkl to_hkl : List (ℤ × ℤ × ℤ)) :
    List ((ℤ × ℤ × ℤ) × (ℤ × ℤ × ℤ)) :=
  (from_hkl.zip to_hkl).filter
    (fun ft => decide (ft.2 ≠ (0, 0, 0)) && decide (ft.1 ≠ (0, 0, 0)))

/-- The matrix assembled from the three snapped least-squares solutions.
The source stores the nine `int(12·…)` values row-major (one solve per
output component), transposes them for `rot_mx(r, denominator=12)`, wraps
the result in `change_of_basis_op` and inverts; the net action of the
returned operator's `.apply` on a miller index is exactly `h ↦ R h` for
the matrix `R` built here (row i = snapped solution of component i over
12). -/
def buildR (r0 r1 r2 : QV3) : Mat3 :=
  { m00 := (snap12 r0.1 : ℚ) / 12, m01 := (snap12 r0.2.1 : ℚ) / 12, m02 := (snap12 r0.2.2 : ℚ) / 12,
    m10 := (snap12 r1.1 : ℚ) / 12, m11 := (snap12 r1.2.1 : ℚ) / 12, m12 := (snap12 r1.2.2 : ℚ) / 12,
    m20 := (snap12 r2.1 : ℚ) / 12, m21 := (snap12 r2.2.1 : ℚ) / 12, m22 := (snap12 r2.2.2 : ℚ) / 12 }

/-- Placeholder text of the solver failure on a singular normal matrix
(the exact scitbx message text is not depended on by any claim). -/
def singularMsg : String :=
  "scitbx linear_ls solve failure: singular normal matrix"

/-- Embedding of `derive_change_of_basis_op` (reindex.py lines 72-111):
filter out sentinel rows, `assert sel.count(True) >= 3`, three
least-squares solves (one per output component of `to_hkl` against the
components of `from_hkl`), snap each coefficient to denominator 12, build
the operator, and `assert (cb_op.apply(from_hkl) == to_hkl).count(False)
== 0` over the (filtered) arrays before returning it. -/
def derive_change_of_basis_op (from_hkl to_hkl : List (ℤ × ℤ × ℤ)) :
    Except PyErr Mat3 :=
  if (validPairs from_hkl to_hkl).length < 3 then Except.error PyErr.assertionError
  else
    match lsSolve ((validPairs from_hkl to_hkl).map (fun ft => intTripleToQ ft.1))
            ((validPairs from_hkl to_hkl).map (fun ft => ((ft.2.1 : ℚ)))),
          lsSolve ((validPairs from_hkl to_hkl).map (fun ft => intTripleToQ ft.1))
            ((validPairs from_hkl to_hkl).map (fun ft => ((ft.2.2.1 : ℚ)))),
          lsSolve ((validPairs from_hkl to_hkl).map (fun ft => intTripleToQ ft.1))
            ((validPairs from_hkl to_hkl).map (fun ft => ((ft.2.2.2 : ℚ)))) with
    | some r0, some r1, some r2 =>
      if (validPairs from_hkl to_hkl).all
          (fun ft => decide (mat3Apply (buildR r0 r1 r2) (intTripleToQ ft.1) =
            intTripleToQ ft.2)) then
        Except.ok (buildR r0 r1 r2)
      else Except.error PyErr.assertionError
    | _, _, _ => Except.error (PyErr.runtimeError singularMsg)

/-- Row i of a matrix as a vector. -/
def mat3Row0 (m : Mat3) : QV3 := (m.m00, m.m01, m.m02)

/-- Row 1 of a matrix as a vector. -/
def mat3Row1 (m : Mat3) : QV3 := (m.m10, m.m11, m.m12)

/-- Row 2 of a matrix as a vector. -/
def mat3Row2 (m : Mat3) : QV3 := (m.m20, m.m21, m.m22)

/-- Every entry of `M` is a multiple of `1/12` — i.e. the operator is
representable with the fixed denominator 12 used by the source. -/
def mat3Den12 (M : Mat3) : Prop :=
  (∃ z : ℤ, M.m00 = (z : ℚ) / 12) ∧ (∃ z : ℤ, M.m01 = (z : ℚ) / 12) ∧
  (∃ z : ℤ, M.m02 = (z : ℚ) / 12) ∧ (∃ z : ℤ, M.m10 = (z : ℚ) / 12) ∧
  (∃ z : ℤ, M.m11 = (z : ℚ) / 12) ∧ (∃ z : ℤ, M.m12 = (z : ℚ) / 12) ∧
  (∃ z : ℤ, M.m20 = (z : ℚ) / 12) ∧ (∃ z : ℤ, M.m21 = (z : ℚ) / 12) ∧
  (∃ z : ℤ, M.m22 = (z : ℚ) / 12)

/-- The claim's example input: four indexed reflections. -/
def c7From : List (ℤ × ℤ × ℤ) := [(1, 0, 0), (0, 1, 0), (0, 0, 1), (1, 1, 0)]

/-- The claim's example target: the same reflections with h and k
swapped. -/
def c7To : List (ℤ × ℤ × ℤ) := [(0, 1, 0), (1, 0, 0), (0, 0, 1), (1, 1, 0)]

/-- The h/k swap permutation matrix. -/
def swapM : Mat3 :=
  { m00 := 0, m01 := 1, m02 := 0, m10 := 1, m11 := 0, m12 := 0,
    m20 := 0, m21 := 0, m22 := 1 }

/-- The identity operator. -/
def idMat3 : Mat3 :=
  { m00 := 1, m01 := 0, m02 := 0, m10 := 0, m11 := 1, m12 := 0,
    m20 := 0, m21 := 0, m22 := 1 }

/-- Rank-deficient counterexample input: three valid collinear rows,
related to themselves by the identity operator. -/
def c7DegFrom : List (ℤ × ℤ × ℤ) := [(1, 0, 0), (2, 0, 0), (3, 0, 0)]

/-! ## C2, C3: `match_with_reference` (src/array_family/flex.py lines
488-602)

The per-key resolution, the sort by self index and the distance filter
are embedded from the source.  Two embedding choices, both harmless to
the claims: (a) Python 2 dict iteration order is unspecified; since each
key's resolution is independent and the pair list is subsequently sorted
by (distinct) self indices, the final output is independent of that
order, and the model iterates keys in first-occurrence order over the
self table; (b) the filter `sqrt(dx²+dy²+dz²) < 2` is embedded as the
equivalent exact comparison `dx²+dy²+dz² < 4`.  The function's value is
modelled as the accepted list of (self index, other index) pairs, which
determines the returned `mask2` / `other_matched` / `other_unmatched`
and the status-flag updates. -/

/-- One reflection row, reduced to the columns the matcher reads. -/
structure MRow where
  miller_index : ℤ × ℤ × ℤ
  entering : Bool
  id : ℤ
  panel : ℕ
  xyzcal_px : ℚ × ℚ × ℚ
deriving DecidableEq, Repr, Inhabited

/-- A lookup key: `h + (entering.as_int(), id, panel)`. -/
abbrev MKey := (ℤ × ℤ × ℤ) × ℤ × ℤ × ℕ

/-- The lookup key of a row. -/
def rowKey (r : MRow) : MKey :=
  (r.miller_index, (if r.entering then 1 else 0), r.id, r.panel)

/-- Keys in order of first occurrence (the model's canonical iteration
order for the per-key lookup; see the section comment). -/
def firstOccur (ks : List MKey) : List MKey :=
  ks.foldl (fun acc k => if k ∈ acc then acc else acc ++ [k]) []

/-- The row indices of a table sharing a key (the `a` / `b` lists of the
lookup). -/
def idxsWithKey (t : List MRow) (k : MKey) : List ℕ :=
  (List.range t.length).filter (fun i => decide (rowKey (t.getD i default) = k))

/-- `dx**2 + dy**2 + dz**2` between two pixel-space centroids. -/
def dist2 (a b : ℚ × ℚ × ℚ) : ℚ :=
  (a.1 - b.1) ^ 2 + (a.2.1 - b.2.1) ^ 2 + (a.2.2 - b.2.2) ^ 2

/-- The list `d = [(i, j, dx**2+dy**2+dz**2) for j in value.b]` for one
self row `i`. -/
def candTriples (selfT otherT : List MRow) (i : ℕ) (b : List ℕ) :
    List (ℕ × ℕ × ℚ) :=
  b.map (fun j => (i, j,
    dist2 (selfT.getD i default).xyzcal_px (otherT.getD j default).xyzcal_px))

/-- Python's `min(d, key=lambda x: x[2])`: the first element attaining
the minimal third component (later elements replace the current best only
when strictly smaller). -/
def minByD : List (ℕ × ℕ × ℚ) → Option (ℕ × ℕ × ℚ)
  | [] => none
  | x :: xs => some (xs.foldl (fun best y => if y.2.2 < best.2.2 then y else best) x)

/-- Lookup in the per-key `matched` dict (entries `(j, i, d)` keyed by the
other-row index `j`). -/
def dictFind : List (ℕ × ℕ × ℚ) → ℕ → Option (ℕ × ℚ)
  | [], _ => none
  | e :: rest, j => if e.1 = j then some (e.2.1, e.2.2) else dictFind rest j

/-- In-place value replacement at an existing key of the `matched` dict
(`matched[j] = (i, d)` when `j` is already present keeps its position). -/
def dictUpdate : List (ℕ × ℕ × ℚ) → ℕ → ℕ → ℚ → List (ℕ × ℕ × ℚ)
  | [], _, _, _ => []
  | e :: rest, j, i, d =>
    if e.1 = j then (j, i, d) :: rest else e :: dictUpdate rest j i d

/-- One iteration of `for i in value.a`: resolve self row `i` to its
nearest other-row candidate, then claim that other row in `matched`
unless an earlier self row holds it at a strictly smaller (or equal)
squared distance. -/
def matchedStep (selfT otherT : List MRow) (b : List ℕ)
    (m : List (ℕ × ℕ × ℚ)) (i : ℕ) : List (ℕ × ℕ × ℚ) :=
  match minByD (candTriples selfT otherT i b) with
  | none => m
  | some t =>
    match dictFind m t.2.1 with
    | none => m ++ [(t.2.1, t.1, t.2.2)]
    | some e => if t.2.2 < e.2 then dictUpdate m t.2.1 t.1 t.2.2 else m

/-- Per-key pairing (the body of the `for item, value in
lookup.iteritems()` loop): keys with no other rows pair nothing; an
exactly 1-to-1 key pairs directly; otherwise the greedy per-key
nearest-neighbor resolution runs and the `matched` dict is emitted as
`(i, j)` pairs. -/
def resolveKey (selfT otherT : List MRow) (a b : List ℕ) : List (ℕ × ℕ) :=
  if b.length = 0 then []
  else if a.length = 1 ∧ b.length = 1 then [(a.getD 0 0, b.getD 0 0)]
  else (a.foldl (matchedStep selfT otherT b) []).map (fun e => (e.2.1, e.1))

/-- All raw `(match1, match2)` pairs across keys. -/
def matchPairs (selfT otherT : List MRow) : List (ℕ × ℕ) :=
  ((firstOccur (selfT.map rowKey)).map
    (fun k => resolveKey selfT otherT (idxsWithKey selfT k) (idxsWithKey otherT k))).flatten

/-- Stable insertion by self index (Python's stable `sorted(...,
key=lambda x: sind[x])`; self indices are distinct across keys, so any
stable sort yields the same list). -/
def insertPair (q : ℕ × ℕ) : List (ℕ × ℕ) → List (ℕ × ℕ)
  | [] => [q]
  | r :: rs => if q.1 < r.1 then q :: r :: rs else r :: insertPair q rs

/-- Sort the pair list by self index. -/
def sortPairs : List (ℕ × ℕ) → List (ℕ × ℕ)
  | [] => []
  | q :: qs => insertPair q (sortPairs qs)

/-- Embedding of `match_with_reference` (flex.py lines 488-602): build the
per-key lookup, resolve each key, sort by self index, and keep the pairs
whose 3-D pixel distance is strictly below 2 (squared distance below 4).
The result is the accepted (self, other) index pair list. -/
def match_with_reference (selfT otherT : List MRow) : List (ℕ × ℕ) :=
  (sortPairs (matchPairs selfT otherT)).filter
    (fun q => decide (dist2 (selfT.getD q.1 default).xyzcal_px
      (otherT.getD q.2 default).xyzcal_px < 4))

/-- The self rows of `a` whose nearest other-row candidate is `j`,
with their distances, in `a` order (the competitors for other row `j`). -/
def competitors (selfT otherT : List MRow) (b a : List ℕ) (j : ℕ) :
    List (ℕ × ℚ) :=
  a.filterMap (fun i =>
    match minByD (candTriples selfT otherT i b) with
    | some t => if t.2.1 = j then some (t.1, t.2.2) else none
    | none => none)

/-- The first entry of minimal distance: smaller distance wins, exact
ties go to the earlier entry. -/
def firstMinByDist : List (ℕ × ℚ) → Option (ℕ × ℚ)
  | [] => none
  | x :: xs =>
    match firstMinByDist xs with
    | none => some x
    | some y => if y.2 < x.2 then some y else some x

/-- Merge an earlier tentative winner with a later candidate block:
strictly smaller distance replaces, ties keep the earlier. -/
def combineMin : Option (ℕ × ℚ) → Option (ℕ × ℚ) → Option (ℕ × ℚ)
  | none, y => y
  | some c, none => some c
  | some c, some y => if y.2 < c.2 then some y else some c

/-- The claim's hypothesis for C3: every self row has exactly one other
row agreeing on the full key and lying strictly within the 2 px distance
threshold (squared distance below 4), named by `p`. -/
def uniquePartner (selfT otherT : List MRow) (p : ℕ → ℕ) : Prop :=
  ∀ i, i < selfT.length →
    p i < otherT.length ∧
    rowKey (otherT.getD (p i) default) = rowKey (selfT.getD i default) ∧
    dist2 (selfT.getD i default).xyzcal_px
      (otherT.getD (p i) default).xyzcal_px < 4 ∧
    ∀ j, j < otherT.length →
      rowKey (otherT.getD j default) = rowKey (selfT.getD i default) →
      dist2 (selfT.getD i default).xyzcal_px
        (otherT.getD j default).xyzcal_px < 4 →
      j = p i

/-- C2's concrete instance: two self rows with one shared key at
distances 1.0 px and 2.0 px from the single other row. -/
def c2SelfT : List MRow :=
  [ { miller_index := (1, 2, 3), entering := false, id := 0, panel := 0,
      xyzcal_px := (1, 0, 0) },
    { miller_index := (1, 2, 3), entering := false, id := 0, panel := 0,
      xyzcal_px := (2, 0, 0) } ]

/-- C2's concrete other table: one row with the shared key. -/
def c2OtherT : List MRow :=
  [ { miller_index := (1, 2, 3), entering := false, id := 0, panel := 0,
      xyzcal_px := (0, 0, 0) } ]

/-- C3 counterexample self table: two rows sharing a key, both within
2 px of the single other row. -/
def c3CexSelf : List MRow :=
  [ { miller_index := (4, 5, 6), entering := true, id := 0, panel := 0,
      xyzcal_px := (0, 0, 0) },
    { miller_index := (4, 5, 6), entering := true, id := 0, panel := 0,
      xyzcal_px := (2, 0, 0) } ]

/-- C3 counterexample other table: one row, 1 px from each self row. -/
def c3CexOther : List MRow :=
  [ { miller_index := (4, 5, 6), entering := true, id := 0, panel := 0,
      xyzcal_px := (1, 0, 0) } ]

/-- C3 witness tables (self): two keys, partners within threshold. -/
def c3WitSelf : List MRow :=
  [ { miller_index := (1, 0, 0), entering := false, id := 0, panel := 0,
      xyzcal_px := (0, 0, 0) },
    { miller_index := (0, 1, 0), entering := false, id := 0, panel := 0,
      xyzcal_px := (5, 0, 0) } ]

/-- C3 witness tables (other): unique partners 1 px from each self row,
in swapped order. -/
def c3WitOther : List MRow :=
  [ { miller_index := (0, 1, 0), entering := false, id := 0, panel := 0,
      xyzcal_px := (6, 0, 0) },
    { miller_index := (1, 0, 0), entering := false, id := 0, panel := 0,
      xyzcal_px := (1, 0, 0) } ]

/-- Insertion sort on bare self indices, used to state that sorting pairs
by self index is sorting the underlying indices. -/
def insertNat (i : ℕ) : List ℕ → List ℕ
  | [] => [i]
  | j :: js => if i < j then i :: j :: js else j :: insertNat i js

/-- Insertion sort on naturals. -/
def sortNat : List ℕ → List ℕ
  | [] => []
  | i :: is2 => insertNat i (sortNat is2)

/-- The squared distance from self row `i` to its unique partner. -/
def partnerDist (selfT otherT : List MRow) (p : ℕ → ℕ) (i : ℕ) : ℚ :=
  dist2 (selfT.getD i default).xyzcal_px (otherT.getD (p i) default).xyzcal_px

/-! ## Lemmas and claim theorems -/

theorem likelyStep_eq_run (rp1 : ℚ) (s : Solution) :
    likelyStep (some rp1) s = Except.ok (likelyStepRun rp1 s) := by
  unfold likelyStep likelyStepRun pyRmsdGt
  by_cases h1 : s.max_angular_difference < ((2 : ℚ))⁻¹ <;>
    cases hmc : pyLtNum s.min_cc ((1 : ℚ) / 2) <;>
    cases hmc7 : pyLtNum s.min_cc ((7 : ℚ) / 10) <;>
    cases hg2 : pyGtB s.rmsd (2 * rp1) <;>
    simp [h1, hmc, hmc7, hg2, Except.bind, bind, pure, Except.pure]

theorem mapExcept_ok {α β : Type} (f : α → Except PyErr β) (g : α → β) (l : List α)
    (h : ∀ a ∈ l, f a = Except.ok (g a)) : mapExcept f l = Except.ok (l.map g) := by
  induction l with
  | nil => rfl
  | cons x xs ih =>
    simp only [mapExcept, h x (List.mem_cons_self x xs), List.map_cons]
    rw [ih (fun a ha => h a (List.mem_cons_of_mem x ha))]
    rfl

theorem likelyStepRun_recommended (rp1 : ℚ) (s : Solution) (mc r : ℚ)
    (hmc : s.min_cc = some mc) (hr : s.rmsd = some r) :
    likelyStepRun rp1 s =
      { s with recommended := claimRecommended s.max_angular_difference mc r rp1 } := by
  unfold likelyStepRun claimRecommended pyLtNum pyGtB
  rw [hmc, hr]
  by_cases h1 : s.max_angular_difference < ((2 : ℚ))⁻¹ <;> simp [h1]

/-- C1: for a refined settings list whose last entry has
`setting_number = 1` and a present baseline rmsd, `identify_likely_solutions`
succeeds, and every setting whose `min_cc` and `rmsd` are present gets its
`recommended` flag set by exactly the claimed decision table (strict
comparisons, baseline `rmsd_p1` = the last entry's rmsd): small metric
distortion (`< 0.5°`) rejects iff `min_cc < 0.5 ∧ rmsd > 1.5·rmsd_p1`,
otherwise reject iff `(min_cc < 0.7 ∧ rmsd > 2·rmsd_p1) ∨ rmsd > 3·rmsd_p1`;
all other fields are unchanged. -/
theorem c1_recommendation_table (all : List Solution) (p1 : Solution) (rp1 : ℚ)
    (hlast : all.getLast? = some p1) (hset : p1.setting_number = 1)
    (hrp1 : p1.rmsd = some rp1) :
    ∃ out, identify_likely_solutions all = Except.ok out ∧
      out.length = all.length ∧
      ∀ i, i < all.length → ∀ mc r,
        (all.getD i default).min_cc = some mc →
        (all.getD i default).rmsd = some r →
        out.getD i default =
          { all.getD i default with
            recommended :=
              claimRecommended (all.getD i default).max_angular_difference mc r rp1 } := by
  refine ⟨all.map (likelyStepRun rp1), ?_, by simp, ?_⟩
  · unfold identify_likely_solutions
    rw [hlast]
    simp only [Except.bind, bind, hset, reduceIte]
    exact mapExcept_ok _ _ _ (fun a _ => by rw [hrp1, likelyStep_eq_run])
  · intro i hi mc r hmc hr
    rw [List.getD_eq_getElem?_getD, List.getElem?_map,
      List.getElem?_eq_getElem (by simpa using hi)]
    simp only [Option.map_some, Option.getD_some]
    rw [← List.getD_eq_getElem _ default (by simpa using hi)]
    exact likelyStepRun_recommended rp1 _ mc r hmc hr

/-- Witness for C1 at the concrete list `c1Example`: the run succeeds, the
tight-fit poor-cc setting is rejected, the loose-fit setting and the
triclinic baseline are accepted. -/
theorem c1_recommendation_table_witness :
    ∃ out, identify_likely_solutions c1Example = Except.ok out ∧
      out.length = c1Example.length ∧
      (out.getD 0 default).recommended = false ∧
      (out.getD 1 default).recommended = true ∧
      (out.getD 2 default).recommended = true := by
  obtain ⟨out, hok, hlen, h⟩ :=
    c1_recommendation_table c1Example
      { max_angular_difference := 0, min_cc := some 1, rmsd := some 1,
        setting_number := 1, recommended := false } 1 rfl rfl rfl
  refine ⟨out, hok, hlen, ?_, ?_, ?_⟩
  · rw [h 0 (by norm_num [c1Example]) (2/10) 2 rfl rfl]
    simp [claimRecommended, c1Example]
    norm_num
  · rw [h 1 (by norm_num [c1Example]) (8/10) (11/10) rfl rfl]
    simp [claimRecommended, c1Example]
    norm_num
  · rw [h 2 (by norm_num [c1Example]) 1 1 rfl rfl]
    simp [claimRecommended, c1Example]
    norm_num

theorem flexMin_spec (l : List ℚ) (h : l ≠ []) :
    flexMin l ∈ l ∧ ∀ x ∈ l, flexMin l ≤ x := by
  match l, h with
  | x :: xs, _ =>
    simp only [flexMin]
    have key : ∀ (ys : List ℚ) (a : ℚ),
        (ys.foldl min a = a ∨ ys.foldl min a ∈ ys) ∧
          ys.foldl min a ≤ a ∧ ∀ y ∈ ys, ys.foldl min a ≤ y := by
      intro ys
      induction ys with
      | nil => exact fun a => ⟨Or.inl rfl, le_refl a, by simp⟩
      | cons b bs ih =>
        intro a
        obtain ⟨hmem, hle, hall⟩ := ih (min a b)
        refine ⟨?_, ?_, ?_⟩
        · rcases hmem with hm | hm
          · rcases min_choice a b with hc | hc
            · exact Or.inl (by rw [List.foldl_cons, hm, hc])
            · exact Or.inr (by rw [List.foldl_cons, hm, hc]; exact List.mem_cons_self b bs)
          · exact Or.inr (by rw [List.foldl_cons]; exact List.mem_cons_of_mem b hm)
        · exact le_trans hle (min_le_left a b)
        · intro y hy
          rcases List.mem_cons.mp hy with rfl | hy
          · exact le_trans hle (min_le_right a y)
          · exact hall y hy
    obtain ⟨hmem, hle, hall⟩ := key xs x
    refine ⟨?_, ?_⟩
    · rcases hmem with hm | hm
      · simp [hm]
      · simp [hm]
    · intro y hy
      rcases List.mem_cons.mp hy with rfl | hy
      · exact hle
      · exact hall y hy

theorem flexMax_spec (l : List ℚ) (h : l ≠ []) :
    flexMax l ∈ l ∧ ∀ x ∈ l, x ≤ flexMax l := by
  match l, h with
  | x :: xs, _ =>
    simp only [flexMax]
    have key : ∀ (ys : List ℚ) (a : ℚ),
        (ys.foldl max a = a ∨ ys.foldl max a ∈ ys) ∧
          a ≤ ys.foldl max a ∧ ∀ y ∈ ys, y ≤ ys.foldl max a := by
      intro ys
      induction ys with
      | nil => exact fun a => ⟨Or.inl rfl, le_refl a, by simp⟩
      | cons b bs ih =>
        intro a
        obtain ⟨hmem, hle, hall⟩ := ih (max a b)
        refine ⟨?_, ?_, ?_⟩
        · rcases hmem with hm | hm
          · rcases max_choice a b with hc | hc
            · exact Or.inl (by rw [List.foldl_cons, hm, hc])
            · exact Or.inr (by rw [List.foldl_cons, hm, hc]; exact List.mem_cons_self b bs)
          · exact Or.inr (by rw [List.foldl_cons]; exact List.mem_cons_of_mem b hm)
        · exact le_trans (le_max_left a b) hle
        · intro y hy
          rcases List.mem_cons.mp hy with rfl | hy
          · exact le_trans (le_max_right a y) hle
          · exact hall y hy
    obtain ⟨hmem, hle, hall⟩ := key xs x
    refine ⟨?_, ?_⟩
    · rcases hmem with hm | hm
      · simp [hm]
      · simp [hm]
    · intro y hy
      rcases List.mem_cons.mp hy with rfl | hy
      · exact hle
      · exact hall y hy

/-- C5: `refine_subgroup` catches a refinement `RuntimeError` (from either
pass) exactly when its message is one of the two degenerate-geometry
signatures; in that case it sets `refined_experiments`, `rmsd` and
`Nmatches` to `None` and returns the setting normally, while any other
message is re-raised. -/
theorem c5_degenerate_catch
    (refineSvc : RefineCall → Except String RefineOut)
    (ccSvc : Crystal → List ReflRow → List ℚ × List ℕ)
    (params : RSParams) (subgroup : SubgroupS)
    (used_reflections : Reflections) (experiments : Experiments) (e : String) :
    (refineSvc (rsCall1 params subgroup used_reflections experiments) = Except.error e →
      (refine_subgroup refineSvc ccSvc params subgroup used_reflections experiments).1 =
        (if e = sig_g0 ∨ e = sig_g1 then
          Except.ok { ccCleared subgroup with
            refined_experiments := none, rmsd_sq := none, Nmatches := none }
        else Except.error (PyErr.runtimeError e))) ∧
    (∀ out1,
      refineSvc (rsCall1 params subgroup used_reflections experiments) = Except.ok out1 →
      refineSvc (rsCall2 params subgroup used_reflections out1) = Except.error e →
      (refine_subgroup refineSvc ccSvc params subgroup used_reflections experiments).1 =
        (if e = sig_g0 ∨ e = sig_g1 then
          Except.ok { ccCleared subgroup with
            refined_experiments := none, rmsd_sq := none, Nmatches := none }
        else Except.error (PyErr.runtimeError e))) := by
  constructor
  · intro h
    unfold refine_subgroup
    rw [h]
    rfl
  · intro out1 h1 h2
    unfold refine_subgroup
    simp only [h1]
    rw [h2]
    rfl

/-- Witness for C5: with an oracle raising the first degenerate signature
the setting is returned unrefinable; with an oracle raising any other
message the error propagates. -/
theorem c5_degenerate_catch_witness :
    (refine_subgroup refineSvcG0 ccSvcW paramsW subW reflW exptsW).1 =
      Except.ok { ccCleared subW with
        refined_experiments := none, rmsd_sq := none, Nmatches := none } ∧
    (refine_subgroup refineSvcBoom ccSvcW paramsW subW reflW exptsW).1 =
      Except.error (PyErr.runtimeError ("some other refinement failure")) := by
  constructor
  · have h := (c5_degenerate_catch refineSvcG0 ccSvcW paramsW subW reflW exptsW sig_g0).1 rfl
    rw [h, if_pos (Or.inl rfl)]
  · have h := (c5_degenerate_catch refineSvcBoom ccSvcW paramsW subW reflW exptsW
      ("some other refinement failure")).1 rfl
    rw [h, if_neg (by decide)]

/-- C6: on a successful refinement, `refine_subgroup` invokes the external
refine service exactly twice — first with the tukey iqr multiplier doubled,
then with the original multiplier and the experiments produced by the first
pass — and records the second refinery's x/y rmsd norm (squared here, the
code stores `sqrt(dx*dx+dy*dy)`), the second refinery's match count, and
the refined crystal. -/
theorem c6_two_pass
    (refineSvc : RefineCall → Except String RefineOut)
    (ccSvc : Crystal → List ReflRow → List ℚ × List ℕ)
    (params : RSParams) (subgroup : SubgroupS)
    (used_reflections : Reflections) (experiments : Experiments)
    (out1 out2 : RefineOut)
    (h1 : refineSvc (rsCall1 params subgroup used_reflections experiments) = Except.ok out1)
    (h2 : refineSvc (rsCall2 params subgroup used_reflections out1) = Except.ok out2)
    (hc : out2.experiments.crystals.length = 1) :
    (refine_subgroup refineSvc ccSvc params subgroup used_reflections experiments).2 =
      [rsCall1 params subgroup used_reflections experiments,
       rsCall2 params subgroup used_reflections out1] ∧
    (rsCall1 params subgroup used_reflections experiments).iqr_multiplier =
      2 * params.iqr_multiplier ∧
    (rsCall2 params subgroup used_reflections out1).iqr_multiplier =
      params.iqr_multiplier ∧
    (rsCall2 params subgroup used_reflections out1).experiments = out1.experiments ∧
    ∃ s, (refine_subgroup refineSvc ccSvc params subgroup used_reflections experiments).1 =
        Except.ok s ∧
      s.rmsd_sq = some (out2.rmsds.1 * out2.rmsds.1 + out2.rmsds.2.1 * out2.rmsds.2.1) ∧
      s.Nmatches = some out2.nmatches ∧
      s.refined_experiments = some out2.experiments ∧
      s.refined_crystal = some (out2.experiments.crystals.headD default) := by
  have htrace :
      (refine_subgroup refineSvc ccSvc params subgroup used_reflections experiments).2 =
        [rsCall1 params subgroup used_reflections experiments,
         rsCall2 params subgroup used_reflections out1] := by
    unfold refine_subgroup
    simp only [h1]
    rw [h2]
  have hfst :
      (refine_subgroup refineSvc ccSvc params subgroup used_reflections experiments).1 =
        rsSuccess ccSvc (ccCleared subgroup) (reindexedRefl subgroup used_reflections) out2 := by
    unfold refine_subgroup
    simp only [h1]
    rw [h2]
  refine ⟨htrace, rfl, rfl, rfl, ?_⟩
  rw [hfst]
  unfold rsSuccess
  rw [if_pos hc]
  by_cases hint : (reindexedRefl subgroup used_reflections).has_intensity
  · rw [if_pos hint]
    by_cases hlen : 1 < (keptOf ccSvc (reindexedRefl subgroup used_reflections) out2).length
    · rw [if_pos hlen]
      exact ⟨_, rfl, rfl, rfl, rfl, rfl⟩
    · rw [if_neg hlen]
      exact ⟨_, rfl, rfl, rfl, rfl, rfl⟩
  · rw [if_neg hint]
    exact ⟨_, rfl, rfl, rfl, rfl, rfl⟩

/-- Witness for C6: running the concrete two-pass oracle records the
second pass's rmsds (3,4 → 25 squared), match count 25 and the refined
crystal, after exactly the two expected calls. -/
theorem c6_two_pass_witness :
    (refine_subgroup refineSvcW ccSvcW paramsW subW reflW exptsW).2 =
      [rsCall1 paramsW subW reflW exptsW, rsCall2 paramsW subW reflW outW1] ∧
    ∃ s, (refine_subgroup refineSvcW ccSvcW paramsW subW reflW exptsW).1 = Except.ok s ∧
      s.rmsd_sq = some 25 ∧ s.Nmatches = some 25 ∧ s.refined_crystal = some crystalW := by
  obtain ⟨htrace, _, _, _, s, hok, hr, hn, _, hcr⟩ :=
    c6_two_pass refineSvcW ccSvcW paramsW subW reflW exptsW outW1 outW2
      (by rw [show rsCall1 paramsW subW reflW exptsW =
          { iqr_multiplier := 3, reflections := reindexedRefl subW reflW,
            experiments := exptsW } from by
          unfold rsCall1 paramsW; norm_num]
          ; unfold refineSvcW; norm_num)
      (by unfold refineSvcW rsCall2 paramsW; norm_num)
      (by rfl)
  refine ⟨htrace, s, hok, ?_, ?_, ?_⟩
  · rw [hr]
    norm_num [outW2]
  · rw [hn]
    rfl
  · rw [hcr]
    rfl

/-- C10: on a successful run of `refine_subgroup`, if the reflection table
has no intensity column then `min_cc` and `max_cc` are both `None`; if it
has one, they stay `None` unless strictly more than one correlation
coefficient survives the more-than-10-pairs filter, and when set they are
the minimum and maximum over the surviving coefficients with the first
survivor excluded (`ccs[1:]`) — `flexMin`/`flexMax` being genuine min/max,
as the last conjunct states. -/
theorem c10_cc_summary
    (refineSvc : RefineCall → Except String RefineOut)
    (ccSvc : Crystal → List ReflRow → List ℚ × List ℕ)
    (params : RSParams) (subgroup : SubgroupS)
    (used_reflections : Reflections) (experiments : Experiments)
    (out1 out2 : RefineOut)
    (h1 : refineSvc (rsCall1 params subgroup used_reflections experiments) = Except.ok out1)
    (h2 : refineSvc (rsCall2 params subgroup used_reflections out1) = Except.ok out2)
    (hc : out2.experiments.crystals.length = 1) :
    (∃ s, (refine_subgroup refineSvc ccSvc params subgroup used_reflections experiments).1 =
        Except.ok s ∧
      (used_reflections.has_intensity = false → s.min_cc = none ∧ s.max_cc = none) ∧
      (used_reflections.has_intensity = true →
        (¬ 1 < (rsKept ccSvc subgroup used_reflections out2).length →
          s.min_cc = none ∧ s.max_cc = none) ∧
        (1 < (rsKept ccSvc subgroup used_reflections out2).length →
          s.min_cc = some (flexMin (rsKept ccSvc subgroup used_reflections out2).tail) ∧
          s.max_cc = some (flexMax (rsKept ccSvc subgroup used_reflections out2).tail)))) ∧
    (∀ l : List ℚ, l ≠ [] →
      (flexMin l ∈ l ∧ ∀ x ∈ l, flexMin l ≤ x) ∧
      (flexMax l ∈ l ∧ ∀ x ∈ l, x ≤ flexMax l)) := by
  refine ⟨?_, fun l hl => ⟨flexMin_spec l hl, flexMax_spec l hl⟩⟩
  have hfst :
      (refine_subgroup refineSvc ccSvc params subgroup used_reflections experiments).1 =
        rsSuccess ccSvc (ccCleared subgroup) (reindexedRefl subgroup used_reflections) out2 := by
    unfold refine_subgroup
    simp only [h1]
    rw [h2]
  rw [hfst]
  unfold rsSuccess
  rw [if_pos hc]
  have hsame : (reindexedRefl subgroup used_reflections).has_intensity =
      used_reflections.has_intensity := rfl
  have hkeq : keptOf ccSvc (reindexedRefl subgroup used_reflections) out2 =
      rsKept ccSvc subgroup used_reflections out2 := rfl
  by_cases hint : used_reflections.has_intensity
  · rw [hsame, if_pos hint, hkeq]
    by_cases hlen : 1 < (rsKept ccSvc subgroup used_reflections out2).length
    · rw [if_pos hlen]
      refine ⟨_, rfl, ?_, ?_⟩
      · intro hff
        rw [hint] at hff
        cases hff
      · exact fun _ => ⟨fun hn => absurd hlen hn, fun _ => ⟨rfl, rfl⟩⟩
    · rw [if_neg hlen]
      refine ⟨_, rfl, ?_, ?_⟩
      · intro hff
        rw [hint] at hff
        cases hff
      · exact fun _ => ⟨fun _ => ⟨rfl, rfl⟩, fun hy => absurd hy hlen⟩
  · rw [hsame, if_neg hint]
    refine ⟨_, rfl, ?_, ?_⟩
    · exact fun _ => ⟨rfl, rfl⟩
    · intro htt
      exact absurd htt (by simpa using hint)

/-- Witness for C10: with the concrete intensity-bearing table and the
concrete correlation oracle (survivors 1/2, 3/4, 9/10), the summary is
min = 3/4 and max = 9/10 over the survivors excluding the first. -/
theorem c10_cc_summary_witness :
    ∃ s, (refine_subgroup refineSvcW ccSvcW paramsW subW reflW exptsW).1 = Except.ok s ∧
      s.min_cc = some (3/4) ∧ s.max_cc = some (9/10) := by
  obtain ⟨⟨s, hok, _, htrue⟩, _⟩ :=
    c10_cc_summary refineSvcW ccSvcW paramsW subW reflW exptsW outW1 outW2
      (by rw [show rsCall1 paramsW subW reflW exptsW =
          { iqr_multiplier := 3, reflections := reindexedRefl subW reflW,
            experiments := exptsW } from by
          unfold rsCall1 paramsW; norm_num]
          ; unfold refineSvcW; norm_num)
      (by unfold refineSvcW rsCall2 paramsW; norm_num)
      (by rfl)
  obtain ⟨_, hset⟩ := htrue rfl
  have hk : rsKept ccSvcW subW reflW outW2 = [1/2, 3/4, 9/10] := rfl
  obtain ⟨hmin, hmax⟩ := hset (by rw [hk]; norm_num)
  refine ⟨s, hok, ?_, ?_⟩
  · rw [hmin, hk]
    norm_num [flexMin]
  · rw [hmax, hk]
    norm_num [flexMax]

theorem assign_length (lfat : List BravaisSettingM) :
    (assign_setting_numbers lfat).length = lfat.length := by
  unfold assign_setting_numbers
  simp

theorem assign_getD (lfat : List BravaisSettingM) (j : ℕ) (hj : j < lfat.length) :
    (assign_setting_numbers lfat).getD j default =
      { lfat.getD j default with
        setting_number := (lfat.length : ℤ) - (j : ℤ) } := by
  unfold assign_setting_numbers
  rw [List.getD_eq_getElem _ _ (by simpa using hj)]
  rw [List.getElem_map, List.getElem_range]

theorem getLastD_eq_getD (l : List BravaisSettingM) (_ : l ≠ []) :
    l.getLastD default = l.getD (l.length - 1) default := by
  rw [List.getLastD_eq_getLast?, List.getLast?_eq_getElem?]
  rw [List.getD_eq_getElem?_getD]

/-- C4: whenever the factory prefix succeeds, the list length is
preserved, `supergroup()` is the entry at index 0, `triclinic()` is the
entry at the last index and carries the identity change-of-basis operator,
`setting_number` runs `N, N-1, …, 1` in list order (so the last entry has
`setting_number = 1`), and — given the enumerator's descending
symmetry-rank order (spec-modelled, see `BravaisSettingM`) — the entry at
index 0 has the maximal rank, i.e. is the metric supergroup. -/
theorem c4_ordering_invariant (crystals : List Crystal)
    (lfat out : List BravaisSettingM)
    (h : refined_settings_factory_checks crystals lfat = Except.ok out) :
    out.length = lfat.length ∧ out ≠ [] ∧
    rsl_supergroup out = out.getD 0 default ∧
    rsl_triclinic out = out.getD (out.length - 1) default ∧
    (∀ j, j < out.length →
      (out.getD j default).setting_number = (out.length : ℤ) - (j : ℤ)) ∧
    (rsl_triclinic out).setting_number = 1 ∧
    (rsl_triclinic out).cb_op_inp_best = "a,b,c" ∧
    ((lfat.map (fun s => s.sort_key)).Sorted (· ≥ ·) →
      ∀ j, j < out.length →
        (out.getD j default).sort_key ≤ (rsl_supergroup out).sort_key) := by
  unfold refined_settings_factory_checks at h
  split at h
  case isFalse => cases h
  case isTrue hcr =>
    split at h
    case isTrue => cases h
    case isFalse hne =>
      split at h
      case isFalse => cases h
      case isTrue hcb =>
        have hout : out = assign_setting_numbers lfat := by
          cases h
          rfl
        subst hout
        have hlen := assign_length lfat
        have hposlen : 0 < lfat.length := List.length_pos.mpr hne
        have hnonempty : assign_setting_numbers lfat ≠ [] := by
          intro hempty
          rw [hempty] at hlen
          exact hne (List.eq_nil_of_length_eq_zero hlen.symm)
        have hkey : ∀ j, j < lfat.length →
            (assign_setting_numbers lfat).getD j default =
              { lfat.getD j default with
                setting_number := (lfat.length : ℤ) - (j : ℤ) } := assign_getD lfat
        refine ⟨hlen, hnonempty, ?_, ?_, ?_, ?_, ?_, ?_⟩
        · unfold rsl_supergroup
          cases hassign : assign_setting_numbers lfat with
          | nil => exact absurd hassign hnonempty
          | cons a l => simp [hassign]
        · exact getLastD_eq_getD _ hnonempty
        · intro j hj
          rw [hlen] at hj
          rw [hkey j hj, hlen]
        · unfold rsl_triclinic
          rw [getLastD_eq_getD _ hnonempty, hlen,
            hkey (lfat.length - 1) (by omega)]
          show (lfat.length : ℤ) - ((lfat.length - 1 : ℕ) : ℤ) = 1
          omega
        · unfold rsl_triclinic
          rw [getLastD_eq_getD _ hnonempty, hlen,
            hkey (lfat.length - 1) (by omega)]
          show (lfat.getD (lfat.length - 1) default).cb_op_inp_best = "a,b,c"
          rw [← getLastD_eq_getD _ hne]
          exact hcb
        · intro hsorted j hj
          rw [hlen] at hj
          have hhead : rsl_supergroup (assign_setting_numbers lfat) =
              (assign_setting_numbers lfat).getD 0 default := by
            unfold rsl_supergroup
            cases hassign : assign_setting_numbers lfat with
            | nil => exact absurd hassign hnonempty
            | cons a l => simp
          rw [hhead, hkey j hj, hkey 0 hposlen]
          show (lfat.getD j default).sort_key ≤ (lfat.getD 0 default).sort_key
          rcases Nat.eq_zero_or_pos j with rfl | hjpos
          · exact le_refl _
          · have h0j := (List.pairwise_iff_getElem.mp hsorted) 0 j
              (by simpa using hposlen) (by simpa using hj) hjpos
            rw [List.getElem_map, List.getElem_map] at h0j
            rw [List.getD_eq_getElem _ _ hj, List.getD_eq_getElem _ _ hposlen]
            exact h0j

/-- Witness for C4 at the concrete enumeration `c4List` (one crystal):
setting numbers 3, 2, 1 with the triclinic last entry carrying the
identity operator and the supergroup entry maximal in enumeration rank. -/
theorem c4_ordering_invariant_witness :
    ∃ out, refined_settings_factory_checks [crystalW] c4List = Except.ok out ∧
      (out.getD 0 default).setting_number = 3 ∧
      (out.getD 1 default).setting_number = 2 ∧
      (rsl_triclinic out).setting_number = 1 ∧
      (rsl_triclinic out).cb_op_inp_best = "a,b,c" ∧
      ∀ j, j < out.length →
        (out.getD j default).sort_key ≤ (rsl_supergroup out).sort_key := by
  obtain ⟨hlen, _, _, _, hnum, hts, htcb, hsort⟩ :=
    c4_ordering_invariant [crystalW] c4List (assign_setting_numbers c4List) rfl
  refine ⟨_, rfl, ?_, ?_, hts, htcb, hsort (by decide)⟩
  · rw [hnum 0 (by decide)]
    decide
  · rw [hnum 1 (by decide)]
    decide

/-- C8 counterexample: an input with exactly one crystal whose FIRST
(supergroup) entry has the identity change-of-basis operator — a
configuration the claim says trips no assertion — still fails, because the
code's second assertion is on the LAST (triclinic) entry's operator, not
the first entry's. -/
theorem c8_counterexample_first_entry :
    [crystalW].length = 1 ∧
    (rsl_supergroup c8List).cb_op_inp_best = "a,b,c" ∧
    refined_settings_factory_checks [crystalW] c8List =
      Except.error PyErr.assertionError :=
  ⟨rfl, rfl, rfl⟩

/-- C8 (amended): the factory fails with an `AssertionError` if the
crystal count differs from one, or if the LAST (triclinic) entry's
change-of-basis operator is not the identity; with exactly one crystal, a
nonempty enumeration and an identity triclinic operator, neither
assertion trips and the numbered list is returned. -/
theorem c8_assertions (crystals : List Crystal) (lfat : List BravaisSettingM) :
    (crystals.length ≠ 1 →
      refined_settings_factory_checks crystals lfat =
        Except.error PyErr.assertionError) ∧
    (crystals.length = 1 → lfat ≠ [] →
      (lfat.getLastD default).cb_op_inp_best ≠ "a,b,c" →
      refined_settings_factory_checks crystals lfat =
        Except.error PyErr.assertionError) ∧
    (crystals.length = 1 → lfat ≠ [] →
      (lfat.getLastD default).cb_op_inp_best = "a,b,c" →
      refined_settings_factory_checks crystals lfat =
        Except.ok (assign_setting_numbers lfat)) := by
  unfold refined_settings_factory_checks
  refine ⟨fun h => ?_, fun h1 h2 h3 => ?_, fun h1 h2 h3 => ?_⟩
  · rw [if_neg h]
  · rw [if_pos h1, if_neg h2, if_neg h3]
  · rw [if_pos h1, if_neg h2, if_pos h3]

/-- Witness for the amended C8: two crystals trip the first assertion; one
crystal with an identity triclinic operator passes both. -/
theorem c8_assertions_witness :
    refined_settings_factory_checks [crystalW, crystalW] c4List =
      Except.error PyErr.assertionError ∧
    refined_settings_factory_checks [crystalW] c4List =
      Except.ok (assign_setting_numbers c4List) :=
  ⟨(c8_assertions [crystalW, crystalW] c4List).1 (by decide),
    (c8_assertions [crystalW] c4List).2.2 rfl (by decide) rfl⟩

theorem mapExcept_ok_forall {α β : Type} (f : α → Except PyErr β) (l : List α)
    (d : List β) (h : mapExcept f l = Except.ok d) :
    ∀ x ∈ l, ∃ y, f x = Except.ok y := by
  induction l generalizing d with
  | nil =>
    intro x hx
    cases hx
  | cons a as ih =>
    intro x hx
    unfold mapExcept at h
    cases hfa : f a with
    | error e =>
      rw [hfa] at h
      simp [bind, Except.bind] at h
    | ok y =>
      rw [hfa] at h
      cases hrest : mapExcept f as with
      | error e =>
        rw [hrest] at h
        simp [bind, Except.bind] at h
      | ok ys =>
        rcases List.mem_cons.mp hx with rfl | hx2
        · exact ⟨y, hfa⟩
        · exact ih ys hrest x hx2

/-- C9 counterexample: run `refine_subgroup` with a refinement oracle that
fails with a recognized degenerate-geometry signature; the resulting
setting (null rmsd, match count and experiments, `refined_crystal` never
assigned) makes both `as_dict` and `labelit_printout` raise an
`AttributeError` instead of rendering a placeholder, contrary to the
claim. -/
theorem c9_counterexample_rendering_raises :
    ∃ s, (refine_subgroup refineSvcG0 ccSvcW paramsW subW reflW exptsW).1 =
        Except.ok s ∧
      s.rmsd_sq = none ∧ s.Nmatches = none ∧ s.refined_experiments = none ∧
      rsl_as_dict [s] = Except.error PyErr.attributeError ∧
      labelit_printout [s] = Except.error PyErr.attributeError :=
  ⟨{ ccCleared subW with refined_experiments := none, rmsd_sq := none, Nmatches := none },
    by rfl, rfl, rfl, rfl, by rfl, by rfl⟩

/-- C9 (amended): on a settings list containing an unrefinable candidate
(`refined_crystal` never assigned), `as_dict` and `labelit_printout` raise
an `AttributeError` rather than completing; the only placeholder rendering
is for absent correlation coefficients — a fully refined entry with absent
min/max cc renders its cc cell as the dash placeholder without raising. -/
theorem c9_rendering_amended (item : SubgroupS) :
    (item.refined_crystal = none →
      setting_as_dict item = Except.error PyErr.attributeError ∧
      labelit_row item = Except.error PyErr.attributeError) ∧
    (∀ cryst r n, item.refined_crystal = some cryst → item.rmsd_sq = some r →
      item.Nmatches = some n → item.min_cc = none →
      ∃ row, labelit_row item = Except.ok row ∧ row.getD 3 "" = "-/-") ∧
    (∀ l : List SubgroupS, item ∈ l → item.refined_crystal = none →
      ∀ d, rsl_as_dict l ≠ Except.ok d) := by
  refine ⟨?_, ?_, ?_⟩
  · intro hnone
    constructor
    · unfold setting_as_dict
      rw [hnone]
      rfl
    · unfold labelit_row
      rw [hnone]
      rfl
  · intro cryst r n hcr hr hn hmc
    unfold labelit_row
    rw [hcr, hr, hn, hmc]
    cases hmx : item.max_cc <;>
      exact ⟨_, rfl, rfl⟩
  · intro l hmem hnone d hok
    obtain ⟨y, hy⟩ := mapExcept_ok_forall setting_as_dict l d hok item hmem
    have herr : setting_as_dict item = Except.error PyErr.attributeError := by
      unfold setting_as_dict
      rw [hnone]
      rfl
    rw [herr] at hy
    cases hy

/-- Witness for the amended C9: the unrefined concrete setting makes
`as_dict` raise; the refined no-cc setting renders with the placeholder. -/
theorem c9_rendering_amended_witness :
    setting_as_dict subW = Except.error PyErr.attributeError ∧
    ∃ row, labelit_row refinedNoCcW = Except.ok row ∧ row.getD 3 "" = "-/-" :=
  ⟨((c9_rendering_amended subW).1 rfl).1,
    (c9_rendering_amended refinedNoCcW).2.1 crystalW 2 17 rfl rfl rfl rfl⟩

theorem normalVec_dot (m : QV3) (rows : List QV3) :
    normalVec rows (rows.map (fun v => dot3 m v)) = mat3Apply (normalMat rows) m := by
  induction rows with
  | nil =>
    simp only [List.map_nil, normalVec, normalMat, mat3Zero, mat3Apply]
    norm_num
  | cons v vs ih =>
    simp only [List.map_cons, normalVec, normalMat, mat3AddOuter, mat3Apply] at *
    rw [ih]
    refine Prod.ext ?_ (Prod.ext ?_ ?_) <;>
      simp only [mat3Apply, dot3] <;> ring

theorem cramer_unique (N : Mat3) (c x : QV3)
    (hx : mat3Apply N x = c) (hdet : det3 N ≠ 0) :
    (det3Col0 N c / det3 N, det3Col1 N c / det3 N, det3Col2 N c / det3 N) = x := by
  obtain ⟨h0, h1, h2⟩ : (N.m00 * x.1 + N.m01 * x.2.1 + N.m02 * x.2.2 = c.1) ∧
      (N.m10 * x.1 + N.m11 * x.2.1 + N.m12 * x.2.2 = c.2.1) ∧
      (N.m20 * x.1 + N.m21 * x.2.1 + N.m22 * x.2.2 = c.2.2) := by
    rw [← hx]
    exact ⟨rfl, rfl, rfl⟩
  have e0 : det3Col0 N c = det3 N * x.1 := by
    simp only [det3Col0, det3]
    rw [← h0, ← h1, ← h2]
    ring
  have e1 : det3Col1 N c = det3 N * x.2.1 := by
    simp only [det3Col1, det3]
    rw [← h0, ← h1, ← h2]
    ring
  have e2 : det3Col2 N c = det3 N * x.2.2 := by
    simp only [det3Col2, det3]
    rw [← h0, ← h1, ← h2]
    ring
  refine Prod.ext ?_ (Prod.ext ?_ ?_)
  · rw [e0]
    exact mul_div_cancel_left₀ x.1 hdet
  · rw [e1]
    exact mul_div_cancel_left₀ x.2.1 hdet
  · rw [e2]
    exact mul_div_cancel_left₀ x.2.2 hdet

theorem lsSolve_exact (rows : List QV3) (m : QV3)
    (hdet : det3 (normalMat rows) ≠ 0) :
    lsSolve rows (rows.map (fun v => dot3 m v)) = some m := by
  unfold lsSolve
  rw [normalVec_dot]
  rw [if_neg hdet]
  rw [cramer_unique (normalMat rows) (mat3Apply (normalMat rows) m) m rfl hdet]

theorem snap12_exact (x : ℚ) (h : ∃ z : ℤ, x = (z : ℚ) / 12) :
    ((snap12 x : ℤ) : ℚ) / 12 = x := by
  obtain ⟨z, rfl⟩ := h
  unfold snap12 continued_fraction_as_rational truncToInt
  have h12 : (12 : ℚ) * ((z : ℚ) / 12) = (z : ℚ) := by
    field_simp
  rw [h12]
  rw [Rat.num_intCast, Rat.den_intCast]
  norm_num

theorem dot3_row0 (M : Mat3) (v : QV3) :
    dot3 (mat3Row0 M) v = (mat3Apply M v).1 := rfl

theorem dot3_row1 (M : Mat3) (v : QV3) :
    dot3 (mat3Row1 M) v = (mat3Apply M v).2.1 := rfl

theorem dot3_row2 (M : Mat3) (v : QV3) :
    dot3 (mat3Row2 M) v = (mat3Apply M v).2.2 := rfl

/-- C7 (amended): for equal-length miller-index arrays related on their
valid (non-sentinel) rows by an operator representable with denominator 12,
with at least 3 valid rows AND a nonsingular least-squares normal matrix
(the valid rows span three independent directions),
`derive_change_of_basis_op` returns exactly that operator; and — for all
inputs — an operator is only ever returned after the 100%-mapping
validation, so any returned operator maps every valid input index to its
target exactly, the function raising otherwise. -/
theorem c7_reindex_solver (from_hkl to_hkl : List (ℤ × ℤ × ℤ)) (M : Mat3)
    (hlen3 : 3 ≤ (validPairs from_hkl to_hkl).length)
    (hden : mat3Den12 M)
    (hrel : ∀ ft ∈ validPairs from_hkl to_hkl,
      mat3Apply M (intTripleToQ ft.1) = intTripleToQ ft.2)
    (hdet : det3 (normalMat ((validPairs from_hkl to_hkl).map
      (fun ft => intTripleToQ ft.1))) ≠ 0) :
    derive_change_of_basis_op from_hkl to_hkl = Except.ok M ∧
    (∀ (f t : List (ℤ × ℤ × ℤ)) (R : Mat3),
      derive_change_of_basis_op f t = Except.ok R →
      3 ≤ (validPairs f t).length ∧
      ∀ ft ∈ validPairs f t, mat3Apply R (intTripleToQ ft.1) = intTripleToQ ft.2) := by
  constructor
  · unfold derive_change_of_basis_op
    rw [if_neg (not_lt.mpr hlen3)]
    have hb0 : (validPairs from_hkl to_hkl).map (fun ft => ((ft.2.1 : ℚ))) =
        ((validPairs from_hkl to_hkl).map (fun ft => intTripleToQ ft.1)).map
          (fun v => dot3 (mat3Row0 M) v) := by
      rw [List.map_map]
      refine List.map_congr_left ?_
      intro ft hft
      show ((ft.2.1 : ℚ)) = dot3 (mat3Row0 M) (intTripleToQ ft.1)
      rw [dot3_row0, hrel ft hft]
      rfl
    have hb1 : (validPairs from_hkl to_hkl).map (fun ft => ((ft.2.2.1 : ℚ))) =
        ((validPairs from_hkl to_hkl).map (fun ft => intTripleToQ ft.1)).map
          (fun v => dot3 (mat3Row1 M) v) := by
      rw [List.map_map]
      refine List.map_congr_left ?_
      intro ft hft
      show ((ft.2.2.1 : ℚ)) = dot3 (mat3Row1 M) (intTripleToQ ft.1)
      rw [dot3_row1, hrel ft hft]
      rfl
    have hb2 : (validPairs from_hkl to_hkl).map (fun ft => ((ft.2.2.2 : ℚ))) =
        ((validPairs from_hkl to_hkl).map (fun ft => intTripleToQ ft.1)).map
          (fun v => dot3 (mat3Row2 M) v) := by
      rw [List.map_map]
      refine List.map_congr_left ?_
      intro ft hft
      show ((ft.2.2.2 : ℚ)) = dot3 (mat3Row2 M) (intTripleToQ ft.1)
      rw [dot3_row2, hrel ft hft]
      rfl
    rw [hb0, hb1, hb2, lsSolve_exact _ (mat3Row0 M) hdet,
      lsSolve_exact _ (mat3Row1 M) hdet, lsSolve_exact _ (mat3Row2 M) hdet]
    have hR : buildR (mat3Row0 M) (mat3Row1 M) (mat3Row2 M) = M := by
      obtain ⟨d00, d01, d02, d10, d11, d12, d20, d21, d22⟩ := hden
      unfold buildR mat3Row0 mat3Row1 mat3Row2
      rw [snap12_exact M.m00 d00, snap12_exact M.m01 d01, snap12_exact M.m02 d02,
        snap12_exact M.m10 d10, snap12_exact M.m11 d11, snap12_exact M.m12 d12,
        snap12_exact M.m20 d20, snap12_exact M.m21 d21, snap12_exact M.m22 d22]
    show (if (validPairs from_hkl to_hkl).all
        (fun ft => decide (mat3Apply (buildR (mat3Row0 M) (mat3Row1 M) (mat3Row2 M))
          (intTripleToQ ft.1) = intTripleToQ ft.2)) = true then
        Except.ok (buildR (mat3Row0 M) (mat3Row1 M) (mat3Row2 M))
      else Except.error PyErr.assertionError) = Except.ok M
    rw [hR]
    rw [if_pos (List.all_eq_true.mpr (fun ft hft => decide_eq_true (hrel ft hft)))]
  · intro f t R hR
    unfold derive_change_of_basis_op at hR
    by_cases hl : (validPairs f t).length < 3
    · rw [if_pos hl] at hR
      cases hR
    · rw [if_neg hl] at hR
      refine ⟨not_lt.mp hl, ?_⟩
      cases hs0 : lsSolve ((validPairs f t).map (fun ft => intTripleToQ ft.1))
          ((validPairs f t).map (fun ft => ((ft.2.1 : ℚ)))) with
      | none =>
        simp only [hs0] at hR
        cases hR
      | some r0 =>
        simp only [hs0] at hR
        cases hs1 : lsSolve ((validPairs f t).map (fun ft => intTripleToQ ft.1))
            ((validPairs f t).map (fun ft => ((ft.2.2.1 : ℚ)))) with
        | none =>
          simp only [hs1] at hR
          cases hR
        | some r1 =>
          simp only [hs1] at hR
          cases hs2 : lsSolve ((validPairs f t).map (fun ft => intTripleToQ ft.1))
              ((validPairs f t).map (fun ft => ((ft.2.2.2 : ℚ)))) with
          | none =>
            simp only [hs2] at hR
            cases hR
          | some r2 =>
            simp only [hs2] at hR
            by_cases hall : (validPairs f t).all
                (fun ft => decide (mat3Apply (buildR r0 r1 r2)
                  (intTripleToQ ft.1) = intTripleToQ ft.2)) = true
            · rw [if_pos hall] at hR
              have hRe : buildR r0 r1 r2 = R := by
                cases hR
                rfl
              intro ft hft
              rw [← hRe]
              exact of_decide_eq_true (List.all_eq_true.mp hall ft hft)
            · rw [if_neg hall] at hR
              cases hR

/-- Witness for C7 (amended) at the claim's own example: the four indices
(1,0,0),(0,1,0),(0,0,1),(1,1,0) and their h/k-swapped images recover
exactly the swap permutation matrix, which maps all valid rows exactly. -/
theorem c7_reindex_solver_witness :
    derive_change_of_basis_op c7From c7To = Except.ok swapM ∧
    ∀ ft ∈ validPairs c7From c7To,
      mat3Apply swapM (intTripleToQ ft.1) = intTripleToQ ft.2 := by
  have hvp : validPairs c7From c7To =
      [((1, 0, 0), (0, 1, 0)), ((0, 1, 0), (1, 0, 0)),
       ((0, 0, 1), (0, 0, 1)), ((1, 1, 0), (1, 1, 0))] := rfl
  have hrel : ∀ ft ∈ validPairs c7From c7To,
      mat3Apply swapM (intTripleToQ ft.1) = intTripleToQ ft.2 := by
    rw [hvp]
    intro ft hft
    fin_cases hft <;> norm_num [mat3Apply, swapM, intTripleToQ]
  have hden : mat3Den12 swapM :=
    ⟨⟨0, by norm_num [swapM]⟩, ⟨12, by norm_num [swapM]⟩, ⟨0, by norm_num [swapM]⟩,
     ⟨12, by norm_num [swapM]⟩, ⟨0, by norm_num [swapM]⟩, ⟨0, by norm_num [swapM]⟩,
     ⟨0, by norm_num [swapM]⟩, ⟨0, by norm_num [swapM]⟩, ⟨12, by norm_num [swapM]⟩⟩
  have hdet : det3 (normalMat ((validPairs c7From c7To).map
      (fun ft => intTripleToQ ft.1))) ≠ 0 := by
    rw [hvp]
    norm_num [normalMat, mat3AddOuter, mat3Zero, det3, intTripleToQ]
  have hlen3 : 3 ≤ (validPairs c7From c7To).length := by
    rw [hvp]
    decide
  obtain ⟨hok, _⟩ := c7_reindex_solver c7From c7To swapM hlen3 hden hrel hdet
  exact ⟨hok, hrel⟩

/-- C7 counterexample: three valid collinear correspondences, related by
the identity operator (whose entries trivially have denominator at most
12) — the claim's hypotheses hold — yet `derive_change_of_basis_op`
raises from the least-squares solve (singular normal matrix) instead of
returning the identity operator. -/
theorem c7_counterexample_collinear :
    3 ≤ (validPairs c7DegFrom c7DegFrom).length ∧
    mat3Den12 idMat3 ∧
    (∀ ft ∈ validPairs c7DegFrom c7DegFrom,
      mat3Apply idMat3 (intTripleToQ ft.1) = intTripleToQ ft.2) ∧
    derive_change_of_basis_op c7DegFrom c7DegFrom =
      Except.error (PyErr.runtimeError singularMsg) := by
  have hvp : validPairs c7DegFrom c7DegFrom =
      [((1, 0, 0), (1, 0, 0)), ((2, 0, 0), (2, 0, 0)), ((3, 0, 0), (3, 0, 0))] := rfl
  refine ⟨by rw [hvp]; decide, ?_, ?_, ?_⟩
  · exact ⟨⟨12, by norm_num [idMat3]⟩, ⟨0, by norm_num [idMat3]⟩, ⟨0, by norm_num [idMat3]⟩,
      ⟨0, by norm_num [idMat3]⟩, ⟨12, by norm_num [idMat3]⟩, ⟨0, by norm_num [idMat3]⟩,
      ⟨0, by norm_num [idMat3]⟩, ⟨0, by norm_num [idMat3]⟩, ⟨12, by norm_num [idMat3]⟩⟩
  · rw [hvp]
    intro ft hft
    fin_cases hft <;> norm_num [mat3Apply, idMat3, intTripleToQ]
  · have hnone : lsSolve ((validPairs c7DegFrom c7DegFrom).map
        (fun ft => intTripleToQ ft.1))
        ((validPairs c7DegFrom c7DegFrom).map (fun ft => ((ft.2.1 : ℚ)))) = none := by
      rw [hvp]
      norm_num [lsSolve, normalMat, mat3AddOuter, mat3Zero, det3, intTripleToQ]
    unfold derive_change_of_basis_op
    rw [if_neg (by rw [hvp]; decide)]
    simp only [hnone]

theorem combineMin_none_right (x : Option (ℕ × ℚ)) : combineMin x none = x := by
  cases x <;> rfl

theorem combineMin_assoc (x y z : Option (ℕ × ℚ)) :
    combineMin (combineMin x y) z = combineMin x (combineMin y z) := by
  cases x with
  | none => rfl
  | some c =>
    cases y with
    | none => rfl
    | some b =>
      cases z with
      | none =>
        rw [combineMin_none_right, combineMin_none_right]
      | some a =>
        by_cases h1 : b.2 < c.2 <;> by_cases h2 : a.2 < b.2 <;>
          simp only [combineMin, h1, h2, if_true, if_false, reduceIte] <;>
          split_ifs <;> first | rfl | (exfalso; linarith)

theorem firstMin_cons (x : ℕ × ℚ) (xs : List (ℕ × ℚ)) :
    firstMinByDist (x :: xs) = combineMin (some x) (firstMinByDist xs) := by
  cases h : firstMinByDist xs <;> simp [firstMinByDist, combineMin, h]

theorem dictFind_append_self (m : List (ℕ × ℕ × ℚ)) (j i : ℕ) (d : ℚ)
    (h : dictFind m j = none) : dictFind (m ++ [(j, i, d)]) j = some (i, d) := by
  induction m with
  | nil => simp [dictFind]
  | cons e rest ih =>
    by_cases he : e.1 = j
    · simp [dictFind, he] at h
    · simp only [dictFind, he, if_false, reduceIte, List.cons_append] at h ⊢
      exact ih h

theorem dictFind_append_other (m : List (ℕ × ℕ × ℚ)) (j j' i : ℕ) (d : ℚ)
    (h : j ≠ j') : dictFind (m ++ [(j, i, d)]) j' = dictFind m j' := by
  induction m with
  | nil => simp [dictFind, h]
  | cons e rest ih =>
    by_cases he : e.1 = j'
    · simp [dictFind, he]
    · simp only [List.cons_append, dictFind, he, if_false, reduceIte]
      exact ih

theorem dictFind_update_other (m : List (ℕ × ℕ × ℚ)) (j j' i : ℕ) (d : ℚ)
    (h : j ≠ j') : dictFind (dictUpdate m j i d) j' = dictFind m j' := by
  induction m with
  | nil => rfl
  | cons e rest ih =>
    by_cases he : e.1 = j
    · simp only [dictUpdate, he, reduceIte, dictFind]
      rw [if_neg h, if_neg h]
    · simp only [dictUpdate, he, reduceIte, dictFind]
      by_cases he2 : e.1 = j'
      · rw [if_pos he2, if_pos he2]
      · rw [if_neg he2, if_neg he2]
        exact ih

theorem dictFind_update_self (m : List (ℕ × ℕ × ℚ)) (j i : ℕ) (d : ℚ)
    (e : ℕ × ℚ) (h : dictFind m j = some e) :
    dictFind (dictUpdate m j i d) j = some (i, d) := by
  induction m with
  | nil => cases h
  | cons x rest ih =>
    by_cases hx : x.1 = j
    · simp only [dictUpdate, hx, reduceIte, dictFind]
    · simp only [dictFind, hx, if_false, reduceIte] at h
      simp only [dictUpdate, hx, reduceIte, dictFind]
      exact ih h

theorem dictFind_matchedStep (selfT otherT : List MRow) (b : List ℕ)
    (m : List (ℕ × ℕ × ℚ)) (i j : ℕ) :
    dictFind (matchedStep selfT otherT b m i) j =
      combineMin (dictFind m j)
        (match minByD (candTriples selfT otherT i b) with
          | some t => if t.2.1 = j then some (t.1, t.2.2) else none
          | none => none) := by
  cases hmin : minByD (candTriples selfT otherT i b) with
  | none =>
    simp only [matchedStep, hmin, combineMin_none_right]
  | some t =>
    simp only [matchedStep, hmin]
    by_cases hj : t.2.1 = j
    · simp only [hj, reduceIte, eq_self_iff_true, if_true]
      cases hfind : dictFind m j with
      | none =>
        simp only [hfind]
        rw [dictFind_append_self m j t.1 t.2.2 hfind]
        rfl
      | some e =>
        simp only [hfind]
        by_cases hd : t.2.2 < e.2
        · rw [if_pos hd]
          rw [dictFind_update_self m j t.1 t.2.2 e hfind]
          simp [combineMin, hd]
        · rw [if_neg hd, hfind]
          simp [combineMin, hd]
    · rw [if_neg hj, combineMin_none_right]
      cases hfind : dictFind m t.2.1 with
      | none =>
        simp only [hfind]
        exact dictFind_append_other m t.2.1 j t.1 t.2.2 hj
      | some e =>
        simp only [hfind]
        by_cases hd : t.2.2 < e.2
        · rw [if_pos hd]
          exact dictFind_update_other m t.2.1 j t.1 t.2.2 hj
        · rw [if_neg hd]

theorem dictFind_foldl (selfT otherT : List MRow) (b : List ℕ)
    (a : List ℕ) (m : List (ℕ × ℕ × ℚ)) (j : ℕ) :
    dictFind (a.foldl (matchedStep selfT otherT b) m) j =
      combineMin (dictFind m j)
        (firstMinByDist (competitors selfT otherT b a j)) := by
  induction a generalizing m with
  | nil =>
    simp only [List.foldl_nil, competitors, List.filterMap_nil, firstMinByDist,
      combineMin_none_right]
  | cons i a2 ih =>
    rw [List.foldl_cons, ih, dictFind_matchedStep]
    rw [combineMin_assoc]
    congr 1
    unfold competitors
    rw [List.filterMap_cons]
    cases hmin : minByD (candTriples selfT otherT i b) with
    | none => rfl
    | some t =>
      by_cases hj : t.2.1 = j
      · simp only [hj, eq_self_iff_true, if_true, reduceIte, firstMin_cons, combineMin]
      · simp only [hj, if_false, reduceIte, combineMin]

theorem dictUpdate_keys (m : List (ℕ × ℕ × ℚ)) (j i : ℕ) (d : ℚ) :
    (dictUpdate m j i d).map (fun e => e.1) = m.map (fun e => e.1) := by
  induction m with
  | nil => rfl
  | cons e rest ih =>
    by_cases he : e.1 = j
    · simp [dictUpdate, he]
  
    · simp [dictUpdate, he, ih]

theorem dictFind_eq_none_iff (m : List (ℕ × ℕ × ℚ)) (j : ℕ) :
    dictFind m j = none ↔ j ∉ m.map (fun e => e.1) := by
  induction m with
  | nil => simp [dictFind]
  | cons e rest ih =>
    by_cases he : e.1 = j
    · simp [dictFind, he]
    · have he2 : ¬j = e.1 := fun hh => he hh.symm
      simp [dictFind, he, he2, ih]

theorem matchedStep_keys_nodup (selfT otherT : List MRow) (b : List ℕ)
    (m : List (ℕ × ℕ × ℚ)) (i : ℕ) (h : (m.map (fun e => e.1)).Nodup) :
    ((matchedStep selfT otherT b m i).map (fun e => e.1)).Nodup := by
  unfold matchedStep
  cases hmin : minByD (candTriples selfT otherT i b) with
  | none =>
    simp only [hmin]
    exact h
  | some t =>
    simp only [hmin]
    cases hfind : dictFind m t.2.1 with
    | none =>
      simp only [hfind]
      have hn := (dictFind_eq_none_iff m t.2.1).mp hfind
      simp only [List.map_append, List.map_cons, List.map_nil]
      rw [List.nodup_append]
      refine ⟨h, List.nodup_singleton _, ?_⟩
      intro k hk1 hk2
      simp only [List.mem_singleton] at hk2
      subst hk2
      exact hn hk1
    | some e =>
      simp only [hfind]
      by_cases hd : t.2.2 < e.2
      · rw [if_pos hd, dictUpdate_keys]
        exact h
      · rw [if_neg hd]
        exact h

theorem foldl_keys_nodup (selfT otherT : List MRow) (b : List ℕ) (a : List ℕ) :
    ((a.foldl (matchedStep selfT otherT b) []).map (fun e => e.1)).Nodup := by
  have key : ∀ (a2 : List ℕ) (m : List (ℕ × ℕ × ℚ)),
      (m.map (fun e => e.1)).Nodup →
      ((a2.foldl (matchedStep selfT otherT b) m).map (fun e => e.1)).Nodup := by
    intro a2
    induction a2 with
    | nil => exact fun m h => h
    | cons i a3 ih =>
      intro m h
      exact ih _ (matchedStep_keys_nodup selfT otherT b m i h)
  exact key a [] (by simp)

theorem dictFind_some_mem (m : List (ℕ × ℕ × ℚ)) (j x : ℕ) (d : ℚ)
    (h : dictFind m j = some (x, d)) : (j, x, d) ∈ m := by
  induction m with
  | nil => cases h
  | cons e rest ih =>
    by_cases he : e.1 = j
    · obtain ⟨e1, e2, e3⟩ := e
      simp only [dictFind] at h
      rw [if_pos he] at h
      simp only [Option.some.injEq, Prod.mk.injEq] at h
      obtain ⟨h1, h2⟩ := h
      rw [← he, ← h1, ← h2]
      exact List.mem_cons_self _ _
    · simp only [dictFind, he, if_false, reduceIte] at h
      exact List.mem_cons_of_mem _ (ih h)

theorem mem_dictFind (m : List (ℕ × ℕ × ℚ)) (j x : ℕ) (d : ℚ)
    (hnod : (m.map (fun e => e.1)).Nodup) (h : (j, x, d) ∈ m) :
    dictFind m j = some (x, d) := by
  induction m with
  | nil => cases h
  | cons e rest ih =>
    rcases List.mem_cons.mp h with rfl | hmem
    · simp [dictFind]
    · have hj : j ∈ rest.map (fun e => e.1) :=
        List.mem_map.mpr ⟨(j, x, d), hmem, rfl⟩
      simp only [List.map_cons, List.nodup_cons] at hnod
      have he : ¬e.1 = j := fun hh => hnod.1 (hh ▸ hj)
      simp only [dictFind, he, if_false, reduceIte]
      exact ih hnod.2 hmem

theorem resolveKey_general (selfT otherT : List MRow) (a b : List ℕ)
    (hb : b ≠ []) (hnot : ¬(a.length = 1 ∧ b.length = 1)) :
    resolveKey selfT otherT a b =
      (a.foldl (matchedStep selfT otherT b) []).map (fun e => (e.2.1, e.1)) := by
  unfold resolveKey
  rw [if_neg (by simpa [List.length_eq_zero] using hb), if_neg hnot]

/-- C2: in the greedy per-key resolution of `match_with_reference`, among
all self rows (of one key group) resolved to the same other row `j`, the
retained pairing is the first one attaining the smallest squared
`xyzcal.px` distance (`firstMinByDist`: strictly smaller distance wins,
exact ties go to the earlier row in per-key list order), every other
competitor being excluded; and, concretely, for two self rows with one
key competing for one other row at distances 1.0 px and 2.0 px, the
1.0 px row is paired and the 2.0 px row is absent from the final match
set. -/
theorem c2_tie_break :
    (∀ (selfT otherT : List MRow) (a b : List ℕ) (j winner : ℕ) (dw : ℚ),
      b ≠ [] → ¬(a.length = 1 ∧ b.length = 1) →
      firstMinByDist (competitors selfT otherT b a j) = some (winner, dw) →
      (winner, j) ∈ resolveKey selfT otherT a b ∧
        ∀ i2, i2 ≠ winner → (i2, j) ∉ resolveKey selfT otherT a b) ∧
    match_with_reference c2SelfT c2OtherT = [(0, 0)] := by
  constructor
  · intro selfT otherT a b j winner dw hb hnot hfm
    have hres := resolveKey_general selfT otherT a b hb hnot
    have hfold := dictFind_foldl selfT otherT b a [] j
    have hfind : dictFind (a.foldl (matchedStep selfT otherT b) []) j =
        some (winner, dw) := by
      rw [hfold]
      exact hfm
    have hmem := dictFind_some_mem _ j winner dw hfind
    constructor
    · rw [hres]
      exact List.mem_map.mpr ⟨(j, winner, dw), hmem, rfl⟩
    · intro i2 hne
      rw [hres]
      intro hcontra
      obtain ⟨e, hemem, heq⟩ := List.mem_map.mp hcontra
      obtain ⟨e1, e2, e3⟩ := e
      simp only [Prod.mk.injEq] at heq
      obtain ⟨hq1, hq2⟩ := heq
      rw [hq1, hq2] at hemem
      have := mem_dictFind _ j i2 e3 (foldl_keys_nodup selfT otherT b a) hemem
      rw [hfind] at this
      simp only [Option.some.injEq, Prod.mk.injEq] at this
      exact hne this.1.symm
  · norm_num [match_with_reference, matchPairs, firstOccur, idxsWithKey,
      resolveKey, matchedStep, minByD, candTriples, dictFind, dist2, rowKey,
      sortPairs, insertPair, c2SelfT, c2OtherT, List.range_succ, List.range_zero,
      List.getD]

/-- Witness for C2 on the concrete two-competitor key group: self row 0
(distance 1.0 px) is retained for the single other row, self row 1
(distance 2.0 px) is excluded. -/
theorem c2_tie_break_witness :
    (0, 0) ∈ resolveKey c2SelfT c2OtherT [0, 1] [0] ∧
    (1, 0) ∉ resolveKey c2SelfT c2OtherT [0, 1] [0] := by
  have h := c2_tie_break.1 c2SelfT c2OtherT [0, 1] [0] 0 0 1
    (by decide) (by decide)
    (by norm_num [competitors, minByD, candTriples, dist2, firstMinByDist,
      c2SelfT, c2OtherT, List.getD])
  exact ⟨h.1, h.2 1 (by decide)⟩

theorem minByD_fold_spec (ys : List (ℕ × ℕ × ℚ)) (acc : ℕ × ℕ × ℚ) :
    ys.foldl (fun best y => if y.2.2 < best.2.2 then y else best) acc ∈ acc :: ys ∧
    ∀ z ∈ acc :: ys,
      (ys.foldl (fun best y => if y.2.2 < best.2.2 then y else best) acc).2.2 ≤ z.2.2 := by
  induction ys generalizing acc with
  | nil =>
    refine ⟨List.mem_cons_self _ _, ?_⟩
    intro z hz
    rcases List.mem_cons.mp hz with rfl | hz
    · exact le_refl _
    · cases hz
  | cons y ys2 ih =>
    rw [List.foldl_cons]
    obtain ⟨ihm, ihb⟩ := ih (if y.2.2 < acc.2.2 then y else acc)
    have haccd : (if y.2.2 < acc.2.2 then y else acc).2.2 ≤ acc.2.2 := by
      by_cases hc : y.2.2 < acc.2.2
      · rw [if_pos hc]
        exact le_of_lt hc
      · rw [if_neg hc]
    have hyd : (if y.2.2 < acc.2.2 then y else acc).2.2 ≤ y.2.2 := by
      by_cases hc : y.2.2 < acc.2.2
      · rw [if_pos hc]
      · rw [if_neg hc]
        exact not_lt.mp hc
    constructor
    · rcases List.mem_cons.mp ihm with hm | hm
      · rw [hm]
        by_cases hc : y.2.2 < acc.2.2
        · rw [if_pos hc]
          exact List.mem_cons_of_mem _ (List.mem_cons_self _ _)
        · rw [if_neg hc]
          exact List.mem_cons_self _ _
      · exact List.mem_cons_of_mem _ (List.mem_cons_of_mem _ hm)
    · intro z hz
      rcases List.mem_cons.mp hz with rfl | hz
      · exact le_trans (ihb _ (List.mem_cons_self _ _)) haccd
      · rcases List.mem_cons.mp hz with rfl | hz
        · exact le_trans (ihb _ (List.mem_cons_self _ _)) hyd
        · exact ihb z (List.mem_cons_of_mem _ hz)

theorem minByD_unique_min (l : List (ℕ × ℕ × ℚ)) (x : ℕ × ℕ × ℚ)
    (hx : x ∈ l) (hmin : ∀ y ∈ l, y = x ∨ x.2.2 < y.2.2) :
    minByD l = some x := by
  match l, hx with
  | x0 :: xs, hx =>
    obtain ⟨hm, hb⟩ := minByD_fold_spec xs x0
    rcases hmin _ hm with he | hlt
    · simp only [minByD]
      rw [he]
    · exact absurd (hb x hx) (not_le.mpr hlt)

theorem mem_idxsWithKey (t : List MRow) (k : MKey) (i : ℕ) :
    i ∈ idxsWithKey t k ↔ i < t.length ∧ rowKey (t.getD i default) = k := by
  simp [idxsWithKey, List.mem_filter, List.mem_range]

theorem idxsWithKey_nodup (t : List MRow) (k : MKey) :
    (idxsWithKey t k).Nodup :=
  (List.nodup_range _).filter _

theorem nearest_eq_partner (selfT otherT : List MRow) (p : ℕ → ℕ)
    (hp : uniquePartner selfT otherT p) (i : ℕ) (hi : i < selfT.length) :
    minByD (candTriples selfT otherT i
        (idxsWithKey otherT (rowKey (selfT.getD i default)))) =
      some (i, p i, partnerDist selfT otherT p i) := by
  obtain ⟨hpl, hpk, hpd, huniq⟩ := hp i hi
  apply minByD_unique_min
  · exact List.mem_map.mpr ⟨p i, (mem_idxsWithKey _ _ _).mpr ⟨hpl, hpk⟩, rfl⟩
  · intro y hy
    obtain ⟨j, hj, rfl⟩ := List.mem_map.mp hy
    obtain ⟨hjl, hjk⟩ := (mem_idxsWithKey _ _ _).mp hj
    by_cases hje : j = p i
    · subst hje
      exact Or.inl rfl
    · refine Or.inr ?_
      show partnerDist selfT otherT p i <
        dist2 (selfT.getD i default).xyzcal_px (otherT.getD j default).xyzcal_px
    
      by_contra hcon
      push_neg at hcon
      have hd4 : dist2 (selfT.getD i default).xyzcal_px
          (otherT.getD j default).xyzcal_px < 4 := lt_of_le_of_lt hcon hpd
      exact hje (huniq j hjl hjk hd4)

theorem dictFind_map_eq_none (g : ℕ → ℕ × ℕ × ℚ) (l : List ℕ) (j : ℕ)
    (h : ∀ i ∈ l, (g i).1 ≠ j) : dictFind (l.map g) j = none := by
  induction l with
  | nil => rfl
  | cons i l2 ih =>
    simp only [List.map_cons, dictFind,
      h i (List.mem_cons_self _ _), if_false, reduceIte]
    exact ih (fun i2 hi2 => h i2 (List.mem_cons_of_mem _ hi2))

theorem foldl_partner (selfT otherT : List MRow) (p : ℕ → ℕ)
    (hp : uniquePartner selfT otherT p)
    (hinj : ∀ i1, i1 < selfT.length → ∀ i2, i2 < selfT.length →
      p i1 = p i2 → i1 = i2)
    (k : MKey) :
    ∀ (a processed : List ℕ),
      (∀ i ∈ a, i < selfT.length ∧ rowKey (selfT.getD i default) = k) →
      (∀ i ∈ processed, i < selfT.length) →
      (processed ++ a).Nodup →
      a.foldl (matchedStep selfT otherT (idxsWithKey otherT k))
          (processed.map (fun i => (p i, i, partnerDist selfT otherT p i))) =
        (processed ++ a).map (fun i => (p i, i, partnerDist selfT otherT p i)) := by
  intro a
  induction a with
  | nil =>
    intro processed _ _ _
    rw [List.foldl_nil, List.append_nil]
  | cons i a2 ih =>
    intro processed ha hproc hnodup
    obtain ⟨hil, hik⟩ := ha i (List.mem_cons_self _ _)
    have hstep : matchedStep selfT otherT (idxsWithKey otherT k)
        (processed.map (fun i => (p i, i, partnerDist selfT otherT p i))) i =
        (processed ++ [i]).map (fun i => (p i, i, partnerDist selfT otherT p i)) := by
      unfold matchedStep
      rw [← hik, nearest_eq_partner selfT otherT p hp i hil]
      have hnone : dictFind
          (processed.map (fun i => (p i, i, partnerDist selfT otherT p i))) (p i) =
          none := by
        apply dictFind_map_eq_none
        intro i2 hi2
        show p i2 ≠ p i
        intro hpe
        have : i2 = i := hinj i2 (hproc i2 hi2) i hil hpe
        subst this
        exact (List.nodup_append.mp hnodup).2.2 hi2 (List.mem_cons_self _ _)
      simp only [hnone]
      rw [List.map_append]
      rfl
    rw [List.foldl_cons, hstep]
    have := ih (processed ++ [i])
      (fun i2 hi2 => ha i2 (List.mem_cons_of_mem _ hi2))
      (fun i2 hi2 => by
        rcases List.mem_append.mp hi2 with h2 | h2
        · exact hproc i2 h2
        · rw [List.mem_singleton.mp h2]
          exact hil)
      (by rwa [List.append_assoc, List.singleton_append])
    rw [this, List.append_assoc, List.singleton_append]

theorem resolveKey_partner (selfT otherT : List MRow) (p : ℕ → ℕ)
    (hp : uniquePartner selfT otherT p)
    (hinj : ∀ i1, i1 < selfT.length → ∀ i2, i2 < selfT.length →
      p i1 = p i2 → i1 = i2)
    (k : MKey) :
    resolveKey selfT otherT (idxsWithKey selfT k) (idxsWithKey otherT k) =
      (idxsWithKey selfT k).map (fun i => (i, p i)) := by
  by_cases hb : (idxsWithKey otherT k).length = 0
  · have ha : idxsWithKey selfT k = [] := by
      by_contra hne
      obtain ⟨i, hi⟩ := List.exists_mem_of_ne_nil _ hne
      obtain ⟨hil, hik⟩ := (mem_idxsWithKey _ _ _).mp hi
      obtain ⟨hpl, hpk, _, _⟩ := hp i hil
      have hpmem : p i ∈ idxsWithKey otherT k :=
        (mem_idxsWithKey _ _ _).mpr ⟨hpl, hpk.trans hik⟩
      rw [List.length_eq_zero.mp hb] at hpmem
      cases hpmem
    unfold resolveKey
    rw [if_pos hb, ha]
    rfl
  · by_cases h11 : (idxsWithKey selfT k).length = 1 ∧ (idxsWithKey otherT k).length = 1
    · obtain ⟨i, hia⟩ := List.length_eq_one.mp h11.1
      obtain ⟨j, hjb⟩ := List.length_eq_one.mp h11.2
      have hi : i ∈ idxsWithKey selfT k := by
        rw [hia]
        exact List.mem_singleton_self _
      obtain ⟨hil, hik⟩ := (mem_idxsWithKey _ _ _).mp hi
      obtain ⟨hpl, hpk, _, _⟩ := hp i hil
      have hpmem : p i ∈ idxsWithKey otherT k :=
        (mem_idxsWithKey _ _ _).mpr ⟨hpl, hpk.trans hik⟩
      rw [hjb] at hpmem
      have hpij : p i = j := List.mem_singleton.mp hpmem
      unfold resolveKey
      rw [if_neg hb, if_pos h11, hia, hjb]
      simp [hpij]
    · unfold resolveKey
      rw [if_neg hb, if_neg h11]
      have hfold := foldl_partner selfT otherT p hp hinj k (idxsWithKey selfT k) []
        (fun i hi => (mem_idxsWithKey _ _ _).mp hi)
        (fun i hi => by cases hi)
        (by simpa using idxsWithKey_nodup selfT k)
      rw [show (([] : List ℕ).map
          (fun i => (p i, i, partnerDist selfT otherT p i))) = [] from rfl] at hfold
      rw [hfold]
      rw [show (([] : List ℕ) ++ idxsWithKey selfT k) = idxsWithKey selfT k from rfl]
      rw [List.map_map]
      rfl

theorem firstOccur_spec (ks : List MKey) :
    (firstOccur ks).Nodup ∧ ∀ k, k ∈ firstOccur ks ↔ k ∈ ks := by
  have key : ∀ (ks2 : List MKey) (acc : List MKey), acc.Nodup →
      (ks2.foldl (fun acc k => if k ∈ acc then acc else acc ++ [k]) acc).Nodup ∧
      ∀ k, k ∈ ks2.foldl (fun acc k => if k ∈ acc then acc else acc ++ [k]) acc ↔
        k ∈ acc ∨ k ∈ ks2 := by
    intro ks2
    induction ks2 with
    | nil =>
      intro acc h
      exact ⟨h, fun k => by simp⟩
    | cons k0 ks3 ih =>
      intro acc h
      rw [List.foldl_cons]
      by_cases hk0 : k0 ∈ acc
      · rw [if_pos hk0]
        obtain ⟨ihn, ihm⟩ := ih acc h
        refine ⟨ihn, fun k => ?_⟩
        rw [ihm k]
        constructor
        · rintro (h2 | h2)
          · exact Or.inl h2
          · exact Or.inr (List.mem_cons_of_mem _ h2)
        · rintro (h2 | h2)
          · exact Or.inl h2
          · rcases List.mem_cons.mp h2 with rfl | h2
            · exact Or.inl hk0
            · exact Or.inr h2
      · rw [if_neg hk0]
        have hnod : (acc ++ [k0]).Nodup := by
          rw [List.nodup_append]
          refine ⟨h, List.nodup_singleton _, ?_⟩
          intro x hx1 hx2
          rw [List.mem_singleton.mp hx2] at hx1
          exact hk0 hx1
        obtain ⟨ihn, ihm⟩ := ih (acc ++ [k0]) hnod
        refine ⟨ihn, fun k => ?_⟩
        rw [ihm k]
        simp only [List.mem_append, List.mem_singleton, List.mem_cons]
        tauto
  obtain ⟨hn, hm⟩ := key ks [] List.nodup_nil
  unfold firstOccur
  exact ⟨hn, fun k => by rw [hm k]; simp⟩

theorem insertNat_perm (i : ℕ) (l : List ℕ) : List.Perm (insertNat i l) (i :: l) := by
  induction l with
  | nil => rfl
  | cons j js ih =>
    unfold insertNat
    by_cases h : i < j
    · rw [if_pos h]
    · rw [if_neg h]
      exact (ih.cons j).trans (List.Perm.swap i j js)

theorem sortNat_perm (l : List ℕ) : List.Perm (sortNat l) l := by
  induction l with
  | nil => rfl
  | cons i is2 ih =>
    unfold sortNat
    exact (insertNat_perm i (sortNat is2)).trans (ih.cons i)

theorem insertNat_sorted (i : ℕ) (l : List ℕ)
    (h : l.Sorted (· ≤ ·)) : (insertNat i l).Sorted (· ≤ ·) := by
  induction l with
  | nil => simp [insertNat]
  | cons j js ih =>
    rw [List.sorted_cons] at h
    unfold insertNat
    by_cases hij : i < j
    · rw [if_pos hij, List.sorted_cons]
      refine ⟨fun b hb => ?_, List.sorted_cons.mpr h⟩
      rcases List.mem_cons.mp hb with rfl | hb
      · exact le_of_lt hij
      · exact le_trans (le_of_lt hij) (h.1 b hb)
    · rw [if_neg hij, List.sorted_cons]
      refine ⟨fun b hb => ?_, ih h.2⟩
      have hb2 : b ∈ i :: js := (insertNat_perm i js).mem_iff.mp hb
      rcases List.mem_cons.mp hb2 with rfl | hb2
      · exact Nat.le_of_not_lt hij
      · exact h.1 b hb2

theorem sortNat_sorted (l : List ℕ) : (sortNat l).Sorted (· ≤ ·) := by
  induction l with
  | nil => exact List.sorted_nil
  | cons i is2 ih => exact insertNat_sorted i (sortNat is2) ih

theorem sortNat_eq_range (l : List ℕ) (n : ℕ) (h : List.Perm l (List.range n)) :
    sortNat l = List.range n :=
  List.eq_of_perm_of_sorted ((sortNat_perm l).trans h)
    (sortNat_sorted l) (List.sorted_le_range n)

theorem insertPair_map (p : ℕ → ℕ) (i : ℕ) (l : List ℕ) :
    insertPair (i, p i) (l.map (fun i => (i, p i))) =
      (insertNat i l).map (fun i => (i, p i)) := by
  induction l with
  | nil => rfl
  | cons j js ih =>
    simp only [List.map_cons, insertPair, insertNat]
    by_cases h : i < j
    · rw [if_pos h, if_pos h]
      rfl
    · rw [if_neg h, if_neg h, List.map_cons, ih]

theorem sortPairs_map (p : ℕ → ℕ) (l : List ℕ) :
    sortPairs (l.map (fun i => (i, p i))) =
      (sortNat l).map (fun i => (i, p i)) := by
  induction l with
  | nil => rfl
  | cons i is2 ih =>
    simp only [List.map_cons, sortPairs, sortNat]
    rw [ih, insertPair_map]

theorem mem_keyFlatten (selfT : List MRow) (i : ℕ) :
    i ∈ ((firstOccur (selfT.map rowKey)).map
        (fun k => idxsWithKey selfT k)).flatten ↔ i < selfT.length := by
  rw [List.mem_flatten]
  constructor
  · rintro ⟨l, hl, hil⟩
    obtain ⟨k, _, rfl⟩ := List.mem_map.mp hl
    exact ((mem_idxsWithKey selfT k i).mp hil).1
  · intro hi
    refine ⟨idxsWithKey selfT (rowKey (selfT.getD i default)), ?_, ?_⟩
    · refine List.mem_map.mpr ⟨_, ?_, rfl⟩
      refine ((firstOccur_spec _).2 _).mpr ?_
      refine List.mem_map.mpr ⟨selfT.getD i default, ?_, rfl⟩
      rw [List.getD_eq_getElem selfT default hi]
      exact List.getElem_mem hi
    · exact (mem_idxsWithKey selfT _ i).mpr ⟨hi, rfl⟩

theorem keyFlatten_nodup (selfT : List MRow) :
    (((firstOccur (selfT.map rowKey)).map
      (fun k => idxsWithKey selfT k)).flatten).Nodup := by
  rw [List.nodup_flatten]
  constructor
  · intro l hl
    obtain ⟨k, _, rfl⟩ := List.mem_map.mp hl
    exact idxsWithKey_nodup selfT k
  · rw [List.pairwise_map]
    refine ((firstOccur_spec (selfT.map rowKey)).1).imp ?_
    intro k1 k2 hne i hi1 hi2
    exact hne (((mem_idxsWithKey _ _ _).mp hi1).2.symm.trans
      ((mem_idxsWithKey _ _ _).mp hi2).2)

theorem keyFlatten_perm (selfT : List MRow) :
    List.Perm (((firstOccur (selfT.map rowKey)).map
        (fun k => idxsWithKey selfT k)).flatten)
      (List.range selfT.length) := by
  rw [List.perm_ext_iff_of_nodup (keyFlatten_nodup selfT) (List.nodup_range _)]
  intro a
  rw [mem_keyFlatten, List.mem_range]

theorem matchPairs_eq (selfT otherT : List MRow) (p : ℕ → ℕ)
    (hp : uniquePartner selfT otherT p)
    (hinj : ∀ i1, i1 < selfT.length → ∀ i2, i2 < selfT.length →
      p i1 = p i2 → i1 = i2) :
    matchPairs selfT otherT =
      (((firstOccur (selfT.map rowKey)).map
          (fun k => idxsWithKey selfT k)).flatten).map (fun i => (i, p i)) := by
  unfold matchPairs
  rw [List.map_flatten, List.map_map]
  congr 1
  apply List.map_congr_left
  intro k _
  simp only [Function.comp]
  exact resolveKey_partner selfT otherT p hp hinj k

/-- C3 (counterexample to the claim as stated): in `c3CexSelf` /
`c3CexOther` every self row has exactly one other row agreeing on the
full key within the 2 px threshold (both name the single other row 0),
yet `match_with_reference` pairs only self row 0 — self row 1 is absent
from the match set, so the result is not a bijection on self rows. The
claim omits that the unique-partner map must also be injective. -/
theorem c3_counterexample_not_bijection :
    uniquePartner c3CexSelf c3CexOther (fun _ => 0) ∧
    match_with_reference c3CexSelf c3CexOther = [(0, 0)] ∧
    ∀ j, (1, j) ∉ match_with_reference c3CexSelf c3CexOther := by
  have heval : match_with_reference c3CexSelf c3CexOther = [(0, 0)] := by
    norm_num [match_with_reference, matchPairs, firstOccur, idxsWithKey, resolveKey,
      matchedStep, minByD, candTriples, dictFind, dist2, rowKey, sortPairs, insertPair,
      c3CexSelf, c3CexOther, List.range_succ, List.range_zero, List.getD]
  refine ⟨?_, heval, ?_⟩
  · intro i hi
    have hi2 : i < 2 := by simpa [c3CexSelf] using hi
    interval_cases i <;>
      refine ⟨by norm_num [c3CexOther], by norm_num [rowKey, c3CexSelf, c3CexOther],
        by norm_num [dist2, c3CexSelf, c3CexOther], ?_⟩ <;>
    · intro j hj _ _
      have : j < 1 := by simpa [c3CexOther] using hj
      show j = 0
      omega
  · intro j hj
    rw [heval] at hj
    simp at hj

/-- C3 (amended): for tables where each self row `i` has exactly one
other row `p i` agreeing on the full key (miller index, entering, id,
panel) within the 2 px pixel-distance threshold, and the partner map is
injective across self rows, `match_with_reference` returns exactly the
bijection pairing each self index `0..len-1` once, in order, with its
unique partner; and in general the final distance filter keeps a sorted
candidate pair iff its squared 3-D pixel distance is strictly below 4
(pixel distance strictly below 2). -/
theorem c3_bijection_amended (selfT otherT : List MRow) (p : ℕ → ℕ)
    (hp : uniquePartner selfT otherT p)
    (hinj : ∀ i1, i1 < selfT.length → ∀ i2, i2 < selfT.length →
      p i1 = p i2 → i1 = i2) :
    match_with_reference selfT otherT =
      (List.range selfT.length).map (fun i => (i, p i)) ∧
    ∀ (s o : List MRow) (q : ℕ × ℕ), q ∈ sortPairs (matchPairs s o) →
      (q ∈ match_with_reference s o ↔
        dist2 (s.getD q.1 default).xyzcal_px
          (o.getD q.2 default).xyzcal_px < 4) := by
  constructor
  · unfold match_with_reference
    rw [matchPairs_eq selfT otherT p hp hinj, sortPairs_map,
      sortNat_eq_range _ _ (keyFlatten_perm selfT)]
    apply List.filter_eq_self.mpr
    intro q hq
    obtain ⟨i, hi, rfl⟩ := List.mem_map.mp hq
    rw [List.mem_range] at hi
    exact decide_eq_true ((hp i hi).2.2.1)
  · intro s o q hq
    unfold match_with_reference
    rw [List.mem_filter]
    simp [hq]

/-- C3 witness: on the concrete two-key tables with swapped partner
order, the amended theorem evaluates the matcher to the bijection
[(0, 1), (1, 0)]. -/
theorem c3_bijection_amended_witness :
    match_with_reference c3WitSelf c3WitOther = [(0, 1), (1, 0)] := by
  have hp : uniquePartner c3WitSelf c3WitOther
      (fun i => if i = 0 then 1 else 0) := by
    intro i hi
    have hi2 : i < 2 := by simpa [c3WitSelf] using hi
    interval_cases i
    · refine ⟨by norm_num [c3WitOther], by norm_num [rowKey, c3WitSelf, c3WitOther],
        by norm_num [dist2, c3WitSelf, c3WitOther], ?_⟩
      intro j hj hk _
      have hj2 : j < 2 := by simpa [c3WitOther] using hj
      interval_cases j
      · exact absurd hk (by norm_num [rowKey, c3WitSelf, c3WitOther])
      · norm_num
    · refine ⟨by norm_num [c3WitOther], by norm_num [rowKey, c3WitSelf, c3WitOther],
        by norm_num [dist2, c3WitSelf, c3WitOther], ?_⟩
      intro j hj hk _
      have hj2 : j < 2 := by simpa [c3WitOther] using hj
      interval_cases j
      · norm_num
      · exact absurd hk (by norm_num [rowKey, c3WitSelf, c3WitOther])
  have hinj : ∀ i1, i1 < c3WitSelf.length → ∀ i2, i2 < c3WitSelf.length →
      (fun i => if i = 0 then 1 else 0) i1 =
        (fun i => if i = 0 then 1 else 0) i2 → i1 = i2 := by
    intro i1 h1 i2 h2 he
    have h1b : i1 < 2 := by simpa [c3WitSelf] using h1
    have h2b : i2 < 2 := by simpa [c3WitSelf] using h2
    interval_cases i1 <;> interval_cases i2 <;> simp_all
  have h := (c3_bijection_amended c3WitSelf c3WitOther
    (fun i => if i = 0 then 1 else 0) hp hinj).1
  rw [h]
  norm_num [c3WitSelf, List.range_succ, List.range_zero]
